import Mathlib

/-!
Verification development for the `multig` repository (Camoufox single-session
runner and cookie import/export).

The Python sources `src/python/run_one.py` and `src/python/cookies_io.py` are
shallowly embedded here: pure string manipulation becomes Lean functions on
`String`/`List Char`, filesystem and browser side effects become explicit
state passing over a filesystem model plus oracle records describing what the
driven browser would answer, and every fallible operation returns
`Option`/`Except`.  Each definition carries a doc comment naming the Python
function (and behaviour) it embeds.
-/

/- ## Python string primitives -/

/-- Characters treated as whitespace by Python `str.strip()` (ASCII/Latin-1
range: space, `\t`, `\n`, `\v`, `\f`, `\r`, the file/group/record/unit
separators 28-31, next-line 133 and no-break space 160).  The inputs handled
in this development are printable ASCII, where this coincides with Python. -/
def pyIsSpace (c : Char) : Bool :=
  c.toNat = 32 || (9 ≤ c.toNat && c.toNat ≤ 13) || (28 ≤ c.toNat && c.toNat ≤ 31) ||
    c.toNat = 133 || c.toNat = 160

/-- Python `str.strip()` on a list of characters. -/
def pyStripList (cs : List Char) : List Char :=
  ((cs.dropWhile pyIsSpace).reverse.dropWhile pyIsSpace).reverse

/-- Python `str.strip()`. -/
def pyStrip (s : String) : String :=
  String.mk (pyStripList s.data)

/-- Python `str.lower()` (ASCII case mapping; the strings lowered by the
embedded code are ASCII host names and cookie attributes). -/
def asciiLower (s : String) : String :=
  String.mk (s.data.map Char.toLower)

/-- Splits a character list at the first occurrence of any stop character:
returns the prefix before the stop and the remainder starting with the stop
(or `(cs, [])` when no stop occurs). -/
def splitAtFirstOf (stops : List Char) : List Char → List Char × List Char
  | [] => ([], [])
  | c :: cs =>
    if c ∈ stops then ([], c :: cs)
    else
      let p := splitAtFirstOf stops cs
      (c :: p.1, p.2)

/-- Characters allowed in a URL scheme by `urllib.parse` (letters, digits,
`+`, `-`, `.`). -/
def schemeChar (c : Char) : Bool :=
  c.isAlpha || c.isDigit || c = '+' || c = '-' || c = '.'

/-- A valid URL scheme per `urllib.parse.urlsplit`: non-empty, starts with a
letter, remaining characters are scheme characters. -/
def validScheme : List Char → Bool
  | [] => false
  | c :: cs => c.isAlpha && cs.all schemeChar

/-- The scheme-removal step of `urllib.parse.urlsplit`: if the text up to the
first `:` is a valid scheme, drop it (and the colon); otherwise leave the
input unchanged. -/
def dropScheme (cs : List Char) : List Char :=
  let p := splitAtFirstOf [':'] cs
  match p.2 with
  | ':' :: tail => if validScheme p.1 then tail else cs
  | _ => cs

/-- The netloc step of `urllib.parse.urlsplit`: when the remainder after the
scheme starts with `//`, the netloc extends to the first `/`, `?` or `#`. -/
def netlocAndRest : List Char → List Char × List Char
  | '/' :: '/' :: tail => splitAtFirstOf ['/', '?', '#'] tail
  | cs => ([], cs)

/-- The fragment- and query-removal steps of `urllib.parse.urlsplit` applied
to the post-netloc remainder, leaving the path. -/
def dropFragmentQuery (cs : List Char) : List Char :=
  (splitAtFirstOf ['?'] (splitAtFirstOf ['#'] cs).1).1

/-- The `netloc` and `path` components computed by
`urllib.parse.urlsplit`: leading C0-control/space characters are stripped,
tab/CR/LF are removed, then scheme, netloc, fragment and query are split off.
(The unused scheme/query/fragment components are discarded here; the embedded
code reads only `netloc` and `path`.) -/
def urlsplitNetlocPath (s : String) : String × String :=
  let cs := (s.data.dropWhile fun c => c.toNat ≤ 32).filter
    fun c => !(c = '\t' || c = '\n' || c = '\r')
  let rest := dropScheme cs
  let p := netlocAndRest rest
  (String.mk p.1, String.mk (dropFragmentQuery p.2))

/-- Python `path.strip("/")` on a character list. -/
def stripSlashes (cs : List Char) : List Char :=
  ((cs.dropWhile (· = '/')).reverse.dropWhile (· = '/')).reverse

/-- Python `str.split("/")`: splits at every `/`, keeping empty groups
(`"".split("/") == [""]`, `"a//b".split("/") == ["a","","b"]`). -/
def splitOnSlash : List Char → List (List Char)
  | [] => [[]]
  | c :: cs =>
    let r := splitOnSlash cs
    if c = '/' then [] :: r
    else
      match r with
      | [] => [[c]]
      | g :: gs => (c :: g) :: gs

/-- Python `"/".join(...)` on character lists. -/
def joinSlash : List (List Char) → List Char
  | [] => []
  | [g] => g
  | g :: gs => g ++ '/' :: joinSlash gs

/- ## URL canonicalizer (`_normalize_github_raw_url`, `_normalize_userscript_url`) -/

/-- Shallow embedding of `run_one.py::_normalize_github_raw_url`:
strip the input; empty input yields `""`; split netloc and path with
`urlsplit`; when the lower-cased host is `github.com`/`www.github.com` and the
`/`-stripped path splits into at least six segments with the third equal to
`raw`, and owner, repo and the joined remainder are all non-empty, rewrite to
`https://raw.githubusercontent.com/owner/repo/remainder`; otherwise return
the stripped input unchanged. -/
def _normalize_github_raw_url (url : String) : String :=
  let value := pyStrip url
  if value = "" then ""
  else
    let parsed := urlsplitNetlocPath value
    let host := asciiLower parsed.1
    let path := String.mk (stripSlashes parsed.2.data)
    if host = "github.com" ∨ host = "www.github.com" then
      let parts := splitOnSlash path.data
      if 6 ≤ parts.length ∧ parts.get? 2 = some ('r' :: 'a' :: 'w' :: []) then
        let owner := parts.headD []
        let repo := (parts.drop 1).headD []
        let remainder := joinSlash (parts.drop 3)
        if owner ≠ [] ∧ repo ≠ [] ∧ remainder ≠ [] then
          "https://raw.githubusercontent.com/" ++ String.mk owner ++ "/" ++
            String.mk repo ++ "/" ++ String.mk remainder
        else value
      else value
    else value

/-- Shallow embedding of `run_one.py::_normalize_userscript_url`: strip, map
empty input to `""`, and otherwise delegate to `_normalize_github_raw_url`. -/
def _normalize_userscript_url (url : String) : String :=
  let value := pyStrip url
  if value = "" then "" else _normalize_github_raw_url value

/-- The guard of the rewrite branch inside `_normalize_github_raw_url`,
exposed as a boolean on the already-stripped value: true exactly when the
function would rewrite the URL to its `raw.githubusercontent.com` form. -/
def rawPermalinkRewritable (value : String) : Bool :=
  let parsed := urlsplitNetlocPath value
  let host := asciiLower parsed.1
  let parts := splitOnSlash (stripSlashes parsed.2.data)
  (host = "github.com" || host = "www.github.com") &&
    (decide (6 ≤ parts.length) && decide (parts.get? 2 = some ('r' :: 'a' :: 'w' :: []))) &&
    (decide (parts.headD [] ≠ []) && decide ((parts.drop 1).headD [] ≠ []) &&
      decide (joinSlash (parts.drop 3) ≠ []))

/- ## SHA-256 (for `_addon_cache_path`), on `Nat` with explicit mod 2^32 -/

/-- 32-bit right rotation, on `Nat` reduced mod `2^32`. -/
def rotr32 (n x : Nat) : Nat :=
  ((x >>> n) ||| (x <<< (32 - n))) % 4294967296

/-- SHA-256 message-schedule sigma-0. -/
def smallSigma0 (x : Nat) : Nat := rotr32 7 x ^^^ rotr32 18 x ^^^ (x >>> 3)

/-- SHA-256 message-schedule sigma-1. -/
def smallSigma1 (x : Nat) : Nat := rotr32 17 x ^^^ rotr32 19 x ^^^ (x >>> 10)

/-- SHA-256 compression Sigma-0. -/
def bigSigma0 (x : Nat) : Nat := rotr32 2 x ^^^ rotr32 13 x ^^^ rotr32 22 x

/-- SHA-256 compression Sigma-1. -/
def bigSigma1 (x : Nat) : Nat := rotr32 6 x ^^^ rotr32 11 x ^^^ rotr32 25 x

/-- SHA-256 choice function (`¬x` as xor against the 32-bit mask). -/
def chFn (x y z : Nat) : Nat := (x &&& y) ^^^ ((x ^^^ 4294967295) &&& z)

/-- SHA-256 majority function. -/
def majFn (x y z : Nat) : Nat := (x &&& y) ^^^ (x &&& z) ^^^ (y &&& z)

/-- SHA-256 padding: append `0x80`, zero bytes to reach 56 mod 64, then the
bit length as 8 big-endian bytes. -/
def sha256Pad (msg : List Nat) : List Nat :=
  let L := msg.length
  let k := (119 - L % 64) % 64
  msg ++ 128 :: List.replicate k 0 ++
    (List.range 8).map fun i => (L * 8) >>> (8 * (7 - i)) % 18446744073709551616 % 256

/-- Big-endian grouping of bytes into 32-bit words. -/
def bytesToWords : List Nat → List Nat
  | b0 :: b1 :: b2 :: b3 :: rest => (((b0 * 256 + b1) * 256 + b2) * 256 + b3) :: bytesToWords rest
  | _ => []

/-- Groups a word list into 16-word blocks (fuel-structural so that the
kernel can evaluate it; the fuel `n` bounds the number of blocks and every
step consumes at least one word, so `ws.length` fuel always suffices). -/
def chunk16Fuel : Nat → List Nat → List (List Nat)
  | 0, _ => []
  | _, [] => []
  | n + 1, w :: ws => ((w :: ws).take 16) :: chunk16Fuel n ((w :: ws).drop 16)

/-- Groups a word list into 16-word blocks. -/
def chunk16 (ws : List Nat) : List (List Nat) :=
  chunk16Fuel ws.length ws

/-- One message-schedule extension step: appends word `i` computed from words
`i-2`, `i-7`, `i-15`, `i-16`. -/
def scheduleStep (ws : List Nat) : List Nat :=
  let i := ws.length
  ws ++ [(smallSigma1 (ws.getD (i - 2) 0) + ws.getD (i - 7) 0 +
    smallSigma0 (ws.getD (i - 15) 0) + ws.getD (i - 16) 0) % 4294967296]

/-- Extends a 16-word block to the full 64-word schedule. -/
def fullSchedule (block : List Nat) : List Nat :=
  (List.range 48).foldl (fun ws _ => scheduleStep ws) block

/-- The SHA-256 round constants (FIPS 180-4 table in decimal). -/
def sha256K : List Nat :=
  [1116352408, 1899447441, 3049323471, 3921009573, 961987163, 1508970993,
   2453635748, 2870763221, 3624381080, 310598401, 607225278, 1426881987,
   1925078388, 2162078206, 2614888103, 3248222580, 3835390401, 4022224774,
   264347078, 604807628, 770255983, 1249150122, 1555081692, 1996064986,
   2554220882, 2821834349, 2952996808, 3210313671, 3336571891, 3584528711,
   113926993, 338241895, 666307205, 773529912, 1294757372, 1396182291,
   1695183700, 1986661051, 2177026350, 2456956037, 2730485921, 2820302411,
   3259730800, 3345764771, 3516065817, 3600352804, 4094571909, 275423344,
   430227734, 506948616, 659060556, 883997877, 958139571, 1322822218,
   1537002063, 1747873779, 1955562222, 2024104815, 2227730452, 2361852424,
   2428436474, 2756734187, 3204031479, 3329325298]

/-- The SHA-256 initial hash state (FIPS 180-4, in decimal). -/
def sha256Init : List Nat :=
  [1779033703, 3144134277, 1013904242, 2773480762,
   1359893119, 2600822924, 528734635, 1541459225]

/-- One SHA-256 compression round driven by a `(constant, scheduled word)`
pair; the state is the 8-word working vector. -/
def sha256Round (st : List Nat) (kw : Nat × Nat) : List Nat :=
  match st with
  | [a, b, c, d, e, f, g, h] =>
    let t1 := (h + bigSigma1 e + chFn e f g + kw.1 + kw.2) % 4294967296
    let t2 := (bigSigma0 a + majFn a b c) % 4294967296
    [(t1 + t2) % 4294967296, a, b, c, (d + t1) % 4294967296, e, f, g]
  | other => other

/-- Processes one 16-word block against the running hash. -/
def sha256Block (h : List Nat) (block : List Nat) : List Nat :=
  let st := ((sha256K.zip (fullSchedule block)).foldl sha256Round h)
  (h.zip st).map fun p => (p.1 + p.2) % 4294967296

/-- SHA-256 of a byte list, as the final eight 32-bit words. -/
def sha256Words (msg : List Nat) : List Nat :=
  (chunk16 (bytesToWords (sha256Pad msg))).foldl sha256Block sha256Init

/-- Lower-case hex digit. -/
def hexDigit (n : Nat) : Char :=
  if n < 10 then Char.ofNat (48 + n) else Char.ofNat (87 + n)

/-- Eight lower-case hex digits of a 32-bit word, most significant first. -/
def wordToHex (w : Nat) : List Char :=
  (List.range 8).map fun i => hexDigit ((w >>> (4 * (7 - i))) % 16)

/-- The lower-case hex digest characters of SHA-256, as
`hashlib.sha256(...).hexdigest()` produces them. -/
def sha256HexList (msg : List Nat) : List Char :=
  ((sha256Words msg).map wordToHex).flatten

/-- UTF-8 encoding of a single character (Python `str.encode("utf-8")`). -/
def charUtf8 (c : Char) : List Nat :=
  let n := c.toNat
  if n < 128 then [n]
  else if n < 2048 then [192 + n / 64, 128 + n % 64]
  else if n < 65536 then [224 + n / 4096, 128 + (n / 64) % 64, 128 + n % 64]
  else [240 + n / 262144, 128 + (n / 4096) % 64, 128 + (n / 64) % 64, 128 + n % 64]

/-- UTF-8 encoding of a string. -/
def utf8Bytes (s : String) : List Nat :=
  (s.data.map charUtf8).flatten

/- ## Script fetcher / cache (`_addon_cache_path`, `_download_addon`, `_download_userscript`) -/

/-- Python `str.startswith` via character lists. -/
def strStartsWith (s pre : String) : Bool :=
  pre.data.isPrefixOf s.data

/-- Shallow embedding of `run_one.py::_addon_cache_path`: the cache path is
`<dataDir>/addons/addon-<first 12 hex chars of sha256(url)>.xpi`.  The data
directory (`DATA_DIR` env var resolved by `_data_dir`) is passed as an
explicit parameter. -/
def _addon_cache_path (dataDir url : String) : String :=
  dataDir ++ "/addons/addon-" ++ String.mk ((sha256HexList (utf8Bytes url)).take 12) ++ ".xpi"

/-- `pathlib.Path.with_suffix(".tmp")` restricted to the final path
component: the stem keeps everything before the last `.` of the name (a name
whose only `.` is its first character has no suffix and is kept whole). -/
def stemOf (name : List Char) : List Char :=
  let p := splitAtFirstOf ['.'] name.reverse
  match p.2 with
  | '.' :: rest => if rest = [] then name else rest.reverse
  | _ => name

/-- `path.with_suffix(".tmp")` as used by `_download_addon`. -/
def withSuffixTmp (path : String) : String :=
  let groups := splitOnSlash path.data
  let name := groups.getLastD []
  String.mk (joinSlash (groups.dropLast ++ [stemOf name ++ ('.' :: 't' :: 'm' :: 'p' :: [])]))

/-- Filesystem model: a partial map from paths to file contents.  Directories
are not modeled (the embedded code only ever `mkdir`s parents, which cannot
affect file contents). -/
def FS := String → Option String

/-- The empty filesystem. -/
def fsEmpty : FS := fun _ => Option.none

/-- `Path.write_bytes` / `Path.write_text`: (over)writes one file. -/
def fsWrite (fs : FS) (p c : String) : FS :=
  fun q => if q = p then some c else fs q

/-- `Path.replace`: atomically renames `src` onto `dst`. -/
def fsRename (fs : FS) (src dst : String) : FS :=
  fun q => if q = dst then fs src else if q = src then Option.none else fs q

/-- `Path.exists`. -/
def fsExists (fs : FS) (p : String) : Bool :=
  (fs p).isSome

/-- Observable side effects of the embedded code, in program order: a network
fetch (`urllib.request.urlopen`), a direct file write (`write_bytes` /
`write_text`), an atomic rename (`Path.replace`), and an editor-surface
navigation (`page.goto`). -/
inductive FsEvent where
  | fetch (url : String)
  | write (path : String)
  | rename (src dst : String)
  | goto (address : String)
deriving DecidableEq

/-- Shallow embedding of `run_one.py::_download_addon`.  The network is an
oracle: `response = some body` means `urlopen(url).read()` returns `body`,
`none` means `urlopen` raises (the exception propagates, there is no handler,
modeled as `Except.error`).  If the cache file exists the function returns at
once with no events; otherwise it fetches, writes the body to the `.tmp`
sibling and renames it onto the final path. -/
def _download_addon (fs : FS) (path url : String) (response : Option String) :
    Except Unit FS × List FsEvent :=
  if fsExists fs path then (Except.ok fs, [])
  else
    match response with
    | Option.none => (Except.error (), [FsEvent.fetch url])
    | some body =>
      let tmp := withSuffixTmp path
      (Except.ok (fsRename (fsWrite fs tmp body) tmp path),
        [FsEvent.fetch url, FsEvent.write tmp, FsEvent.rename tmp path])

/-- The first two lines of `run_one.py::_ensure_addon`: compute the cache
path with `_addon_cache_path` and run `_download_addon` against it, returning
the cache path alongside the updated filesystem. -/
def fetchAddonCached (fs : FS) (dataDir url : String) (response : Option String) :
    Except Unit (FS × String) × List FsEvent :=
  let path := _addon_cache_path dataDir url
  match _download_addon fs path url response with
  | (Except.ok fs2, ev) => (Except.ok (fs2, path), ev)
  | (Except.error e, ev) => (Except.error e, ev)

/-- Shallow embedding of `run_one.py::_download_userscript`.  The userscript
URL (the result of `_wplace_script_url()`) is passed as a parameter, as is
the network oracle (`response`, see `_download_addon`; every exception inside
the `try` is modeled by the fetch raising).  Rejects URLs that are empty or
lack an `http(s)://` prefix without touching the network; treats an empty
body as failure; otherwise writes the body directly to
`<profileDir>/wplace-bot.user.js` (no temporary file, no exists check) and
returns that path. -/
def _download_userscript (fs : FS) (profileDir url : String) (response : Option String) :
    Option String × FS × List FsEvent :=
  if url = "" ∨ ¬(strStartsWith url "http://" ∨ strStartsWith url "https://") then
    (Option.none, fs, [])
  else
    let target := profileDir ++ "/wplace-bot.user.js"
    match response with
    | Option.none => (Option.none, fs, [FsEvent.fetch url])
    | some content =>
      if content = "" then (Option.none, fs, [FsEvent.fetch url])
      else (some target, fsWrite fs target content, [FsEvent.fetch url, FsEvent.write target])

/- ## Python values and cookie normalization (`cookies_io.py`) -/

/-- Model of the Python values flowing through `cookies_io.py` and the JSON
payload read by `_get_webext_uuid`: `None`, booleans, ints, floats (as exact
rationals), strings, lists and dicts. -/
inductive PyVal where
  | none
  | bool (b : Bool)
  | int (n : Int)
  | float (q : Rat)
  | str (s : String)
  | list (xs : List PyVal)
  | dict (entries : List (String × PyVal))

/-- Python truthiness (`bool(x)`), used by `if x:` tests. -/
def pyTruthy : PyVal → Bool
  | PyVal.none => false
  | PyVal.bool b => b
  | PyVal.int n => decide (n ≠ 0)
  | PyVal.float q => decide (q ≠ 0)
  | PyVal.str s => decide (s ≠ "")
  | PyVal.list xs => !xs.isEmpty
  | PyVal.dict es => !es.isEmpty

/-- Python `str(x)` for the scalar values the embedded code converts
(`str(raw.get("name"))` etc.).  Container and float renderings are
abbreviated (no claim inspects them): floats are shown as `num/den` and
containers as placeholders, whereas Python prints `1.5` and full reprs. -/
def pyStr : PyVal → String
  | PyVal.none => "None"
  | PyVal.bool true => "True"
  | PyVal.bool false => "False"
  | PyVal.int n => toString n
  | PyVal.float q => toString q.num ++ "/" ++ toString q.den
  | PyVal.str s => s
  | PyVal.list _ => "<list>"
  | PyVal.dict _ => "<dict>"

/-- Numeric value of an all-digit character list. -/
def natOfDigits (cs : List Char) : Nat :=
  cs.foldl (fun acc c => acc * 10 + (c.toNat - 48)) 0

/-- `float(s)` for plain decimal strings: optional sign, digits with an
optional single decimal point (at least one digit).  Python additionally
accepts exponents, `inf`/`nan` and underscores, which are not modeled; no
claim depends on those forms. -/
def pyFloatOfString (s : String) : Option Rat :=
  let cs := pyStripList s.data
  let signed : Int × List Char :=
    match cs with
    | '-' :: t => (-1, t)
    | '+' :: t => (1, t)
    | t => (1, t)
  let p := splitAtFirstOf ['.'] signed.2
  match p.2 with
  | '.' :: frac =>
    if p.1.all Char.isDigit && frac.all Char.isDigit && decide (p.1 ++ frac ≠ []) then
      some (signed.1 * ((natOfDigits p.1 : Rat) +
        (natOfDigits frac : Rat) / ((10 : Rat) ^ frac.length)))
    else Option.none
  | _ =>
    if signed.2.all Char.isDigit && decide (signed.2 ≠ []) then
      some (signed.1 * (natOfDigits signed.2 : Rat))
    else Option.none

/-- Python `float(x)` under the `try` of `_normalize_cookie`: numbers and
bools convert, numeric strings parse, everything else raises
(`TypeError`/`ValueError`), modeled as `none`. -/
def pyFloat : PyVal → Option Rat
  | PyVal.bool b => some (if b then 1 else 0)
  | PyVal.int n => some (n : Rat)
  | PyVal.float q => some q
  | PyVal.str s => pyFloatOfString s
  | _ => Option.none

/-- A Python dict, modeled as an association list with distinct keys;
`raw.get(k)` is the first (unique) binding. -/
abbrev PyDict := List (String × PyVal)

/-- Python `k in raw`. -/
def pyHasKey (raw : PyDict) (k : String) : Bool :=
  (List.lookup k raw).isSome

/-- Python `raw.get(k)` (missing keys give `None`). -/
def pyGet (raw : PyDict) (k : String) : PyVal :=
  (List.lookup k raw).getD PyVal.none

/-- Python `str.capitalize()`: first character upper-cased, rest lowered. -/
def pyCapitalize (s : String) : String :=
  match s.data with
  | [] => ""
  | c :: cs => String.mk (Char.toUpper c :: cs.map Char.toLower)

/-- The `value.strip().lower() in {"1", "true", "yes"}` conversion applied to
string-typed flags throughout `_normalize_cookie`. -/
def strToBoolFlag (s : String) : Bool :=
  let key := asciiLower (pyStrip s)
  key = "1" || key = "true" || key = "yes"

/-- Shallow embedding of `cookies_io.py::_normalize_same_site`: falsy values
and non-strings give `None`; the stripped lower-cased key is capitalized when
it is `lax`/`strict`/`none`; every other key (including the explicit
`unspecified`/`no_restriction` branch) gives `None`. -/
def _normalize_same_site (value : PyVal) : Option String :=
  if !pyTruthy value then Option.none
  else
    match value with
    | PyVal.str s =>
      let key := asciiLower (pyStrip s)
      if key = "lax" ∨ key = "strict" ∨ key = "none" then some (pyCapitalize key)
      else Option.none
    | _ => Option.none

/-- The `domain` block of `_normalize_cookie` (lines 54-62): a truthy domain
is string-coerced; a truthy `hostOnly` (string flags parsed) strips the
leading dots of a dot-prefixed domain; the entry is emitted only for truthy
domains. -/
def cookieDomainEntries (raw : PyDict) : PyDict :=
  let domain0 := pyGet raw "domain"
  if pyTruthy domain0 then
    let domain1 := pyStr domain0
    let hostOnly :=
      match pyGet raw "hostOnly" with
      | PyVal.str s => PyVal.bool (strToBoolFlag s)
      | v => v
    let domain2 :=
      if pyTruthy hostOnly && strStartsWith domain1 "." then
        String.mk (domain1.data.dropWhile (· = '.'))
      else domain1
    [("domain", PyVal.str domain2)]
  else []

/-- The `secure` block of `_normalize_cookie` (lines 64-68): emitted unless
the value `is None`; string flags are parsed, everything else is
truthiness-coerced by `bool(...)`. -/
def cookieSecureEntries (raw : PyDict) : PyDict :=
  match pyGet raw "secure" with
  | PyVal.none => []
  | PyVal.str s => [("secure", PyVal.bool (strToBoolFlag s))]
  | v => [("secure", PyVal.bool (pyTruthy v))]

/-- The `httpOnly` block of `_normalize_cookie` (lines 70-74), identical in
shape to the `secure` block. -/
def cookieHttpOnlyEntries (raw : PyDict) : PyDict :=
  match pyGet raw "httpOnly" with
  | PyVal.none => []
  | PyVal.str s => [("httpOnly", PyVal.bool (strToBoolFlag s))]
  | v => [("httpOnly", PyVal.bool (pyTruthy v))]

/-- The `sameSite` block of `_normalize_cookie` (lines 76-78): the entry is
emitted only when `_normalize_same_site` returns a truthy (non-empty)
string. -/
def cookieSameSiteEntries (raw : PyDict) : PyDict :=
  match _normalize_same_site (pyGet raw "sameSite") with
  | some s => if pyTruthy (PyVal.str s) then [("sameSite", PyVal.str s)] else []
  | Option.none => []

/-- The `expires` block of `_normalize_cookie` (lines 80-90): the session
flag (string flags parsed) suppresses expiry; `expirationDate` is preferred
over `expires`; the raw value must be truthy, convert with `float(...)`
without raising, and be positive. -/
def cookieExpiresEntries (raw : PyDict) : PyDict :=
  let sessionFlag :=
    match pyGet raw "session" with
    | PyVal.str s => PyVal.bool (strToBoolFlag s)
    | v => v
  let expiresRaw :=
    if pyHasKey raw "expirationDate" then pyGet raw "expirationDate" else pyGet raw "expires"
  if pyTruthy expiresRaw && !pyTruthy sessionFlag then
    match pyFloat expiresRaw with
    | some q =>
      if decide (q ≠ 0) && decide (0 < q) then [("expires", PyVal.float q)] else []
    | Option.none => []
  else []

/-- Shallow embedding of `cookies_io.py::_normalize_cookie`: raises
(`Except.error`) exactly when `name` or `value` is absent; otherwise builds
the cookie dict in the source insertion order — `name`/`value`
string-coerced, `path` defaulted to `"/"` when falsy, then the optional
`domain`, `secure`, `httpOnly`, `sameSite` and `expires` entries, each
embedded block by block above. -/
def _normalize_cookie (raw : PyDict) : Except String PyDict :=
  if !pyHasKey raw "name" then Except.error "Cookie missing name"
  else if !pyHasKey raw "value" then
    Except.error ("Cookie " ++ pyStr (pyGet raw "name") ++ " missing value")
  else
    Except.ok
      ([("name", PyVal.str (pyStr (pyGet raw "name"))),
        ("value", PyVal.str (pyStr (pyGet raw "value"))),
        ("path", if pyTruthy (pyGet raw "path") then pyGet raw "path" else PyVal.str "/")] ++
        cookieDomainEntries raw ++ cookieSecureEntries raw ++ cookieHttpOnlyEntries raw ++
        cookieSameSiteEntries raw ++ cookieExpiresEntries raw)

/- ## Extension locator (`_get_webext_uuid`): prefs regex, unescaping, JSON -/

/-- Characters matched by the regex class `\s` (ASCII range). -/
def regexSpace (c : Char) : Bool :=
  c = ' ' || c = '\t' || c = '\n' || c = '\r' || c.toNat = 11 || c.toNat = 12

/-- The literal part of the pattern
`user_pref\("extensions\.webextensions\.uuids",\s*"(.+)"\);\s*`
up to the `\s*`. -/
def uuidsPrefPattern : List Char :=
  ("user_pref(\"extensions.webextensions.uuids\"," : String).data

/-- The closing literal `");` of the uuids pattern. -/
def closeQuoteParen : List Char :=
  ('"' :: ')' :: ';' :: [])

/-- Greedy-group resolution for `"(.+)"\);`: within the window of characters
the dot can span, the group extends to the last position from which the
closing literal `");` follows, and must be non-empty. -/
def lastCloseSplit (window : List Char) : Option (List Char) :=
  match ((List.range (window.length + 1)).filter
      fun k => decide (1 ≤ k) && closeQuoteParen.isPrefixOf (window.drop k)).getLast? with
  | some k => some (window.take k)
  | Option.none => Option.none

/-- Attempts to complete the uuids pattern right after its literal anchor:
skip `\s*` (maximal, no backtracking possible since `\s` cannot match `"`),
require the opening quote, and resolve the greedy `(.+)` (whose dot matches
any character except a newline) against the closing `");`. -/
def matchGroupAfterAnchor (rest : List Char) : Option (List Char) :=
  let rest2 := rest.dropWhile regexSpace
  match rest2 with
  | '"' :: tail => lastCloseSplit (splitAtFirstOf ['\n'] tail).1
  | _ => Option.none

/-- `re.search` for the uuids pattern: scan start positions left to right,
anchor on the literal prefix, and return the first successfully completed
match's group 1. -/
def uuidsPrefSearch : List Char → Option (List Char)
  | [] => Option.none
  | c :: cs =>
    if uuidsPrefPattern.isPrefixOf (c :: cs) then
      match matchGroupAfterAnchor ((c :: cs).drop uuidsPrefPattern.length) with
      | some g => some g
      | Option.none => uuidsPrefSearch cs
    else uuidsPrefSearch cs

/-- Python `text.replace(ab, r)` for a two-character pattern `ab` replaced by
the single character `r`: left-to-right, non-overlapping. -/
def replacePair (a b r : Char) : List Char → List Char
  | [] => []
  | [c] => [c]
  | c :: d :: rest =>
    if c = a ∧ d = b then r :: replacePair a b r rest
    else c :: replacePair a b r (d :: rest)

/-- Value of a hex digit, if any. -/
def hexVal (c : Char) : Option Nat :=
  if c.isDigit then some (c.toNat - 48)
  else if 'a' ≤ c ∧ c ≤ 'f' then some (c.toNat - 87)
  else if 'A' ≤ c ∧ c ≤ 'F' then some (c.toNat - 55)
  else Option.none

/-- JSON whitespace skipping (`json.loads` accepts space, tab, LF, CR). -/
def jsonSkipWs (cs : List Char) : List Char :=
  cs.dropWhile fun c => c = ' ' || c = '\t' || c = '\n' || c = '\r'

/-- Parses the body of a JSON string after its opening quote, handling the
standard escapes; returns the content and the remainder after the closing
quote.  Unescaped control characters are rejected as `json.loads` does.
Surrogate `\u` escapes outside the valid `Char` range collapse to `NUL`
(never exercised: the embedded payloads are extension ids and UUIDs). -/
def jsonParseStringBody (fuel : Nat) (cs : List Char) : Option (List Char × List Char) :=
  match fuel with
  | 0 => Option.none
  | fuel + 1 =>
    match cs with
    | [] => Option.none
    | '"' :: rest => some ([], rest)
    | '\\' :: esc =>
      match esc with
      | '"' :: r => (jsonParseStringBody fuel r).map fun p => ('"' :: p.1, p.2)
      | '\\' :: r => (jsonParseStringBody fuel r).map fun p => ('\\' :: p.1, p.2)
      | '/' :: r => (jsonParseStringBody fuel r).map fun p => ('/' :: p.1, p.2)
      | 'b' :: r => (jsonParseStringBody fuel r).map fun p => (Char.ofNat 8 :: p.1, p.2)
      | 'f' :: r => (jsonParseStringBody fuel r).map fun p => (Char.ofNat 12 :: p.1, p.2)
      | 'n' :: r => (jsonParseStringBody fuel r).map fun p => ('\n' :: p.1, p.2)
      | 'r' :: r => (jsonParseStringBody fuel r).map fun p => ('\r' :: p.1, p.2)
      | 't' :: r => (jsonParseStringBody fuel r).map fun p => ('\t' :: p.1, p.2)
      | 'u' :: h1 :: h2 :: h3 :: h4 :: r =>
        match hexVal h1, hexVal h2, hexVal h3, hexVal h4 with
        | some a, some b, some c, some d =>
          (jsonParseStringBody fuel r).map
            fun p => (Char.ofNat (((a * 16 + b) * 16 + c) * 16 + d) :: p.1, p.2)
        | _, _, _, _ => Option.none
      | _ => Option.none
    | c :: rest =>
      if c.toNat < 32 then Option.none
      else (jsonParseStringBody fuel rest).map fun p => (c :: p.1, p.2)

/-- Parses a JSON number (sign, integer part, optional fraction and
exponent); integer literals become `PyVal.int`, the others `PyVal.float`, as
`json.loads` distinguishes them.  The leading-zero restriction of strict JSON
is not enforced. -/
def jsonParseNumber (cs : List Char) : Option (PyVal × List Char) :=
  let signed : Int × List Char :=
    match cs with
    | '-' :: t => (-1, t)
    | t => (1, t)
  let ip := splitAtFirstOf ['.', 'e', 'E'] signed.2
  let intDigits := ip.1.takeWhile Char.isDigit
  let rest0 := ip.1.drop intDigits.length ++ ip.2
  if intDigits = [] ∨ rest0 ≠ ip.2 then Option.none
  else
    let fracp : Option (List Char) × List Char :=
      match rest0 with
      | '.' :: t =>
        let fd := t.takeWhile Char.isDigit
        (some fd, t.drop fd.length)
      | t => (Option.none, t)
    match fracp.1 with
    | some [] => Option.none
    | _ =>
      let expp : Option (Int × List Char) :=
        match fracp.2 with
        | 'e' :: t => jsonExpTail t
        | 'E' :: t => jsonExpTail t
        | t => some (0, t)
      match expp with
      | Option.none => Option.none
      | some ep =>
        let frac := (fracp.1.getD []).length
        let mant : Rat := signed.1 * ((natOfDigits intDigits : Rat) +
          (natOfDigits (fracp.1.getD []) : Rat) / ((10 : Rat) ^ frac))
        let value : Rat :=
          if 0 ≤ ep.1 then mant * (10 : Rat) ^ ep.1.toNat else mant / (10 : Rat) ^ (-ep.1).toNat
        let hasExp : Bool :=
          match fracp.2 with
          | 'e' :: _ => true
          | 'E' :: _ => true
          | _ => false
        if fracp.1.isNone && !hasExp then
          some (PyVal.int (signed.1 * (natOfDigits intDigits : Int)), fracp.2)
        else some (PyVal.float value, ep.2)
where
  /-- Parses the signed digits of an exponent. -/
  jsonExpTail (t : List Char) : Option (Int × List Char) :=
    let se : Int × List Char :=
      match t with
      | '-' :: u => (-1, u)
      | '+' :: u => (1, u)
      | u => (1, u)
    let ds := se.2.takeWhile Char.isDigit
    if ds = [] then Option.none else some (se.1 * (natOfDigits ds : Int), se.2.drop ds.length)

/-- Python-dict insertion for JSON object members: a repeated key overwrites
the stored value in place (last wins), otherwise the entry is appended. -/
def dictInsert (es : List (String × PyVal)) (k : String) (v : PyVal) : List (String × PyVal) :=
  match es with
  | [] => [(k, v)]
  | (k0, v0) :: rest => if k0 = k then (k0, v) :: rest else (k0, v0) :: dictInsert rest k v

/-- The three mutually recursive parsing routines of the JSON grammar
(`value`, remaining object `members`, remaining array `elements`), built by
plain structural recursion on a shared fuel so that the kernel can evaluate
them: level `fuel + 1` routines call only level `fuel` routines, exactly as
the recursive descent of `json.loads` consumes at least one character per
nesting step. -/
def jsonParsers (fuel : Nat) :
    (List Char → Option (PyVal × List Char)) ×
    (List Char → List (String × PyVal) → Option (PyVal × List Char)) ×
    (List Char → List PyVal → Option (PyVal × List Char)) :=
  match fuel with
  | 0 => (fun _ => Option.none, fun _ _ => Option.none, fun _ _ => Option.none)
  | fuel + 1 =>
    let prev := jsonParsers fuel
    (fun cs =>
      match jsonSkipWs cs with
      | '{' :: rest =>
        match jsonSkipWs rest with
        | '}' :: r2 => some (PyVal.dict [], r2)
        | r2 => prev.2.1 r2 []
      | '[' :: rest =>
        match jsonSkipWs rest with
        | ']' :: r2 => some (PyVal.list [], r2)
        | r2 => prev.2.2 r2 []
      | '"' :: rest =>
        match jsonParseStringBody (rest.length + 1) rest with
        | some p => some (PyVal.str (String.mk p.1), p.2)
        | Option.none => Option.none
      | 't' :: 'r' :: 'u' :: 'e' :: rest => some (PyVal.bool true, rest)
      | 'f' :: 'a' :: 'l' :: 's' :: 'e' :: rest => some (PyVal.bool false, rest)
      | 'n' :: 'u' :: 'l' :: 'l' :: rest => some (PyVal.none, rest)
      | rest => jsonParseNumber rest,
     fun cs acc =>
      match jsonSkipWs cs with
      | '"' :: rest =>
        match jsonParseStringBody (rest.length + 1) rest with
        | some kp =>
          match jsonSkipWs kp.2 with
          | ':' :: r2 =>
            match prev.1 r2 with
            | some vp =>
              match jsonSkipWs vp.2 with
              | ',' :: r3 => prev.2.1 r3 (dictInsert acc (String.mk kp.1) vp.1)
              | '}' :: r3 => some (PyVal.dict (dictInsert acc (String.mk kp.1) vp.1), r3)
              | _ => Option.none
            | Option.none => Option.none
          | _ => Option.none
        | Option.none => Option.none
      | _ => Option.none,
     fun cs acc =>
      match prev.1 cs with
      | some vp =>
        match jsonSkipWs vp.2 with
        | ',' :: r2 => prev.2.2 r2 (acc ++ [vp.1])
        | ']' :: r2 => some (PyVal.list (acc ++ [vp.1]), r2)
        | _ => Option.none
      | Option.none => Option.none)

/-- The JSON `value` parser at a given fuel. -/
def jsonParseValue (fuel : Nat) (cs : List Char) : Option (PyVal × List Char) :=
  (jsonParsers fuel).1 cs

/-- `json.loads`: parse one value and require only whitespace to remain. -/
def jsonParse (s : String) : Option PyVal :=
  match jsonParseValue (s.data.length + 1) s.data with
  | some p => if jsonSkipWs p.2 = [] then some p.1 else Option.none
  | Option.none => Option.none

/-- Shallow embedding of `run_one.py::_get_webext_uuid`: read
`<profileDir>/prefs.js` from the filesystem model (absent file gives
`None`); search for the `extensions.webextensions.uuids` pref with the
regex model; unescape `\"` and `\\`; parse the JSON payload; require a
dict; and return the non-empty string stored under `addonId`, failing soft
to `None` at every step as the source does. -/
def _get_webext_uuid (fs : FS) (profileDir addonId : String) : Option String :=
  match fs (profileDir ++ "/prefs.js") with
  | Option.none => Option.none
  | some text =>
    match uuidsPrefSearch text.data with
    | Option.none => Option.none
    | some rawGroup =>
      let raw := replacePair '\\' '"' '"' rawGroup
      let raw2 := replacePair '\\' '\\' '\\' raw
      match jsonParse (String.mk raw2) with
      | some (PyVal.dict mapping) =>
        match List.lookup addonId mapping with
        | some (PyVal.str s) => if s = "" then Option.none else some s
        | _ => Option.none
      | _ => Option.none

/- ## Editor session controller (`_open_tampermonkey_editor`,
`_wait_tampermonkey_editor_ready`, `_editor_content_matches`,
`_focus_editor_with_tab_navigation`, `_set_tampermonkey_editor_code`) -/

/-- Python `code.replace("\r\n", "\n")`, also the JS
`value.replace(/\r\n/g, "\n")` used on editor read-backs. -/
def normalizeCrlf (s : String) : String :=
  String.mk (replacePair '\r' '\n' '\n' s.data)

/-- Oracle for the navigation loop of `_open_tampermonkey_editor`, indexed
by the flat attempt counter (route index * 3 + try index, six attempts in
all): whether `page.goto` raises at that attempt, and whether the readiness
probe script evaluates truthily afterwards (an evaluation that raises is
caught by the source and behaves like a falsy probe). -/
structure NavOracle where
  gotoRaises : Nat → Bool
  readyAt : Nat → Bool

/-- The two candidate editor anchors `TAMPERMONKEY_EDITOR_ANCHORS`. -/
def TAMPERMONKEY_EDITOR_ANCHORS : List String :=
  ["options.html#nav=new-user-script+editor", "options.html#nav=new-user-script%2Beditor"]

/-- The inner `for _ in range(3)` loop of `_open_tampermonkey_editor` for one
candidate route: each try issues a navigation (recorded as a `goto` event,
raised or not), and succeeds when the navigation did not raise and the
readiness probe is truthy. -/
def openEditorTries (o : NavOracle) (uuid route : String) (base : Nat) :
    List Nat → Bool × List FsEvent
  | [] => (false, [])
  | t :: ts =>
    let ev := FsEvent.goto ("moz-extension://" ++ uuid ++ "/" ++ route)
    if o.gotoRaises (base + t) then
      let p := openEditorTries o uuid route base ts
      (p.1, ev :: p.2)
    else if o.readyAt (base + t) then (true, [ev])
    else
      let p := openEditorTries o uuid route base ts
      (p.1, ev :: p.2)

/-- Shallow embedding of `run_one.py::_open_tampermonkey_editor`: two
candidate anchors, three tries each, stopping at the first try whose
readiness probe detects an editor widget; `false` when all six tries fail. -/
def _open_tampermonkey_editor (o : NavOracle) (uuid : String) : Bool × List FsEvent :=
  match openEditorTries o uuid (TAMPERMONKEY_EDITOR_ANCHORS.headD "") 0 [0, 1, 2] with
  | (true, ev) => (true, ev)
  | (false, ev1) =>
    match openEditorTries o uuid ((TAMPERMONKEY_EDITOR_ANCHORS.drop 1).headD "") 3 [0, 1, 2] with
    | (true, ev2) => (true, ev1 ++ ev2)
    | (false, ev2) => (false, ev1 ++ ev2)

/-- Shallow embedding of `run_one.py::_wait_tampermonkey_editor_ready`: polls
the readiness script up to 20 times (a poll whose evaluation raises is
caught and counts as falsy); true as soon as one poll is truthy. -/
def _wait_tampermonkey_editor_ready (probe : Nat → Bool) : Bool :=
  (List.range 20).any probe

/-- Shallow embedding of `run_one.py::_editor_content_matches`: `readBack` is
the list of widget values the check script can read from the page at that
moment (`none` when `page.evaluate` raises, which the source catches into
`False`); the script reports a match when any value equals the expected text
after CRLF normalization. -/
def _editor_content_matches (readBack : Option (List String)) (expected : String) : Bool :=
  match readBack with
  | Option.none => false
  | some vs => vs.any fun v => normalizeCrlf v = expected

/-- Oracle describing one editor page during one
`_set_tampermonkey_editor_code` call: the 20 readiness polls, the result of
the direct injection script (`none` when `page.evaluate` raises), the widget
read-backs visible to `_editor_content_matches` after each strategy, and the
failure points of the keyboard and tab-navigation strategies. -/
structure EditorPage where
  ready : Nat → Bool
  setScriptResult : Option Bool
  valuesAfterDirect : Option (List String)
  clickRaises : Bool
  insertRaises : Bool
  valuesAfterKeyboard : Option (List String)
  tabStepRaises : Nat → Bool
  tabFocusAt : Nat → Bool
  insertRaisesTab : Bool
  valuesAfterTab : Option (List String)

/-- The tab loop of `_focus_editor_with_tab_navigation`: pressing Tab (or
evaluating the focus check) may raise, which aborts with `False`; a truthy
focus check returns `True`; exhausting the tab budget returns `False`. -/
def focusTabLoop (p : EditorPage) : List Nat → Bool
  | [] => false
  | i :: is =>
    if p.tabStepRaises i then false
    else if p.tabFocusAt i then true
    else focusTabLoop p is

/-- Shallow embedding of `run_one.py::_focus_editor_with_tab_navigation`. -/
def _focus_editor_with_tab_navigation (p : EditorPage) (maxTabs : Nat) : Bool :=
  focusTabLoop p (List.range maxTabs)

/-- Shallow embedding of `run_one.py::_set_tampermonkey_editor_code`: wait
for readiness and run the direct injection script (`pasted`); verify with
`_editor_content_matches`; on failure fall back to the click/select-all
keyboard insertion, then to tab-navigation focus plus keyboard insertion,
each verified the same way; when every verification fails the source ends
with `return pasted`.  The expected text is the CRLF-normalized `code`. -/
def _set_tampermonkey_editor_code (p : EditorPage) (code : String) : Bool :=
  let normalized := normalizeCrlf code
  let pasted :=
    if _wait_tampermonkey_editor_ready p.ready then p.setScriptResult.getD false else false
  if pasted && _editor_content_matches p.valuesAfterDirect normalized then true
  else if !p.clickRaises && !p.insertRaises &&
      _editor_content_matches p.valuesAfterKeyboard normalized then true
  else if _focus_editor_with_tab_navigation p 16 && !p.insertRaisesTab &&
      _editor_content_matches p.valuesAfterTab normalized then true
  else pasted

/- ## Deployment orchestration (`_install_userscript_via_dashboard`,
`_install_wplace_script`) -/

/-- World state for one deployment run: the filesystem (profile files,
including the marker and `prefs.js`), the profile directory, the userscript
URL (`_wplace_script_url()` result), the network oracle, the navigation
oracle, and the editor-page oracle for each of the three paste retries. -/
structure DeployWorld where
  fs : FS
  profileDir : String
  url : String
  response : Option String
  nav : NavOracle
  pasteAttempt : Nat → EditorPage

/-- The `for _ in range(3)` paste-retry loop of
`_install_userscript_via_dashboard`: stops at the first attempt whose
`_set_tampermonkey_editor_code` reports success. -/
def pasteRetryLoop (w : DeployWorld) (code : String) : List Nat → Bool
  | [] => false
  | k :: ks =>
    if _set_tampermonkey_editor_code (w.pasteAttempt k) code then true
    else pasteRetryLoop w code ks

/-- Shallow embedding of `run_one.py::_install_userscript_via_dashboard`:
locate the Tampermonkey UUID in the profile (failing soft), open the editor
(bounded navigation attempts), read the downloaded script and run the paste
retry loop; the banner dismissals, focus click and best-effort save actions
perform no fetch or navigation and do not change the outcome. -/
def _install_userscript_via_dashboard (w : DeployWorld) (fs : FS) (scriptPath : String) :
    Bool × List FsEvent :=
  match _get_webext_uuid fs w.profileDir "firefox@tampermonkey.net" with
  | Option.none => (false, [])
  | some uuid =>
    match _open_tampermonkey_editor w.nav uuid with
    | (false, ev) => (false, ev)
    | (true, ev) =>
      let code := (fs scriptPath).getD ""
      if pasteRetryLoop w code [0, 1, 2] then (true, ev) else (false, ev)

/-- The marker path `_wplace_marker`. -/
def _wplace_marker (profileDir : String) : String :=
  profileDir ++ "/.wplace_userscript_installed"

/-- Result of one `_install_wplace_script` run: whether the install is
considered complete (marker already present, or the dashboard install
succeeded), the resulting filesystem, and the observable events in order. -/
structure InstallRun where
  outcome : Bool
  fs : FS
  events : List FsEvent

/-- Shallow embedding of `run_one.py::_install_wplace_script`: when the
marker file exists the function logs and returns immediately (no download,
no navigation); otherwise it downloads the userscript into the profile, runs
the dashboard install when the download produced an existing file, and
writes the marker only after success. -/
def _install_wplace_script (w : DeployWorld) : InstallRun :=
  let marker := _wplace_marker w.profileDir
  if fsExists w.fs marker then { outcome := true, fs := w.fs, events := [] }
  else
    let dl := _download_userscript w.fs w.profileDir w.url w.response
    let inst : Bool × List FsEvent :=
      match dl.1 with
      | some p =>
        if fsExists dl.2.1 p then _install_userscript_via_dashboard w dl.2.1 p else (false, [])
      | Option.none => (false, [])
    let fs2 := if inst.1 then fsWrite dl.2.1 marker "installed" else dl.2.1
    { outcome := inst.1, fs := fs2,
      events := dl.2.2 ++ inst.2 ++ (if inst.1 then [FsEvent.write marker] else []) }

/- ## General lemmas -/

theorem dropWhile_eq_self_of_forall {p : Char → Bool} {l : List Char}
    (h : ∀ c ∈ l, p c = false) : l.dropWhile p = l := by
  induction l with
  | nil => rfl
  | cons c cs ih =>
    simp only [List.dropWhile_cons, h c (by simp), Bool.false_eq_true, if_false]

theorem pyStripList_eq_self {cs : List Char} (h : ∀ c ∈ cs, pyIsSpace c = false) :
    pyStripList cs = cs := by
  unfold pyStripList
  rw [dropWhile_eq_self_of_forall h, dropWhile_eq_self_of_forall, List.reverse_reverse]
  intro c hc
  exact h c (List.mem_reverse.mp hc)

theorem pyStrip_eq_self {s : String} (h : ∀ c ∈ s.data, pyIsSpace c = false) :
    pyStrip s = s := by
  unfold pyStrip
  rw [pyStripList_eq_self h]

/- ## Claim C1: verification exactness of `_set_tampermonkey_editor_code` -/

/-- An editor page on which the direct-injection script reports success
(`pasted = True`) but no strategy's read-back ever matches the intended
content: every widget read-back returns a different text, and tab-navigation
never reaches the editor. -/
def c1Page : EditorPage where
  ready := fun _ => true
  setScriptResult := some true
  valuesAfterDirect := some ["WRONG CONTENT"]
  clickRaises := false
  insertRaises := false
  valuesAfterKeyboard := some ["WRONG CONTENT"]
  tabStepRaises := fun _ => false
  tabFocusAt := fun _ => false
  insertRaisesTab := false
  valuesAfterTab := some ["WRONG CONTENT"]

/-- Claim C1 (code bug): the injection routine must report success only when
the read-back value, after CRLF normalization, is byte-identical to the
intended content — but on `c1Page` the intended content is `"GOOD CONTENT"`,
every read-back the verification path can see is `"WRONG CONTENT"` (all
three `_editor_content_matches` checks are false), and
`_set_tampermonkey_editor_code` nevertheless returns `true`, because the
source ends with `return pasted` after logging an injection error. -/
theorem claim1_success_reported_without_verified_match :
    _set_tampermonkey_editor_code c1Page "GOOD CONTENT" = true ∧
    _editor_content_matches c1Page.valuesAfterDirect (normalizeCrlf "GOOD CONTENT") = false ∧
    _editor_content_matches c1Page.valuesAfterKeyboard (normalizeCrlf "GOOD CONTENT") = false ∧
    _editor_content_matches c1Page.valuesAfterTab (normalizeCrlf "GOOD CONTENT") = false := by
  decide

/- ## Claim C9: bounded retries of the editor session controller -/

theorem openEditorTries_of_never_ready {o : NavOracle} (h : ∀ k, o.readyAt k = false)
    (uuid route : String) (base : Nat) (ts : List Nat) :
    openEditorTries o uuid route base ts =
      (false, ts.map fun _ => FsEvent.goto ("moz-extension://" ++ uuid ++ "/" ++ route)) := by
  induction ts with
  | nil => rfl
  | cons t ts ih =>
    unfold openEditorTries
    rw [ih]
    by_cases hg : o.gotoRaises (base + t) <;> simp [hg, h (base + t)]

theorem open_editor_of_never_ready {o : NavOracle} (h : ∀ k, o.readyAt k = false)
    (uuid : String) :
    (_open_tampermonkey_editor o uuid).1 = false ∧
    (_open_tampermonkey_editor o uuid).2.length = 6 := by
  unfold _open_tampermonkey_editor
  rw [openEditorTries_of_never_ready h, openEditorTries_of_never_ready h]
  simp

/-- Claim C9: on an editor surface where every readiness probe is false, the
controller terminates in failure within its fixed budget: the 20-poll wait
returns false, `_open_tampermonkey_editor` returns false after exactly six
navigation attempts (two candidate anchors, three tries each), and the
dashboard installer that drives them returns false with at most six
navigations. -/
theorem claim9_never_ready_terminates_in_failure (o : NavOracle) (probe : Nat → Bool)
    (uuid : String) (ho : ∀ k, o.readyAt k = false) (hp : ∀ i, probe i = false) :
    _wait_tampermonkey_editor_ready probe = false ∧
    (_open_tampermonkey_editor o uuid).1 = false ∧
    (_open_tampermonkey_editor o uuid).2.length = 6 ∧
    ∀ (w : DeployWorld) (fs : FS) (sp : String), w.nav = o →
      (_install_userscript_via_dashboard w fs sp).1 = false ∧
      (_install_userscript_via_dashboard w fs sp).2.length ≤ 6 := by
  refine ⟨?_, (open_editor_of_never_ready ho uuid).1, (open_editor_of_never_ready ho uuid).2, ?_⟩
  · unfold _wait_tampermonkey_editor_ready
    exact List.any_eq_false.mpr fun i _ => by simp [hp i]
  · intro w fs sp hnav
    have ho2 : ∀ k, w.nav.readyAt k = false := by
      intro k
      rw [hnav]
      exact ho k
    simp only [_install_userscript_via_dashboard]
    cases hu : _get_webext_uuid fs w.profileDir "firefox@tampermonkey.net" with
    | none => simp
    | some u =>
      have h1 := open_editor_of_never_ready ho2 u
      rcases hopen : _open_tampermonkey_editor w.nav u with ⟨b, ev⟩
      rw [hopen] at h1
      simp only at h1
      obtain ⟨hb, hlen⟩ := h1
      subst hb
      simp [hopen, hlen]

/-- A page oracle on which nothing ever succeeds (for witnesses). -/
def inertPage : EditorPage where
  ready := fun _ => false
  setScriptResult := Option.none
  valuesAfterDirect := Option.none
  clickRaises := true
  insertRaises := true
  valuesAfterKeyboard := Option.none
  tabStepRaises := fun _ => true
  tabFocusAt := fun _ => false
  insertRaisesTab := true
  valuesAfterTab := Option.none

/-- A deployment world whose editor surface never becomes ready. -/
def neverReadyWorld : DeployWorld where
  fs := fsEmpty
  profileDir := "/p"
  url := "https://example.com/s.user.js"
  response := Option.none
  nav := { gotoRaises := fun _ => false, readyAt := fun _ => false }
  pasteAttempt := fun _ => inertPage

/-- Witness for C9: the bounded-failure theorem applied to a concrete
never-ready surface. -/
theorem claim9_witness :
    _wait_tampermonkey_editor_ready (fun _ => false) = false ∧
    (_open_tampermonkey_editor neverReadyWorld.nav "uuid0").1 = false ∧
    (_install_userscript_via_dashboard neverReadyWorld fsEmpty "/p/wplace-bot.user.js").1 = false := by
  have h := claim9_never_ready_terminates_in_failure neverReadyWorld.nav (fun _ => false)
    "uuid0" (fun _ => rfl) (fun _ => rfl)
  exact ⟨h.1, h.2.1, (h.2.2.2 neverReadyWorld fsEmpty "/p/wplace-bot.user.js" rfl).1⟩

/- ## Claim C3: marker short-circuit and idempotent second deployment -/

/-- Claim C3: when the installation marker file exists in the profile, a
deployment invocation returns success immediately with an empty event trace
(in particular zero network fetches and zero editor navigations), and after
any successful deployment a second invocation on the resulting profile state
performs zero fetches, zero navigations, and succeeds. -/
theorem claim3_marker_short_circuits (w : DeployWorld) :
    (fsExists w.fs (_wplace_marker w.profileDir) = true →
      _install_wplace_script w = ⟨true, w.fs, []⟩) ∧
    ((_install_wplace_script w).outcome = true →
      ∀ w2 : DeployWorld, w2.fs = (_install_wplace_script w).fs →
        w2.profileDir = w.profileDir →
        (_install_wplace_script w2).events = [] ∧ (_install_wplace_script w2).outcome = true) := by
  constructor
  · intro h
    simp [_install_wplace_script, h]
  · intro hout w2 hfs hdir
    have hmarker : fsExists w2.fs (_wplace_marker w2.profileDir) = true := by
      rw [hfs, hdir]
      by_cases h : fsExists w.fs (_wplace_marker w.profileDir)
      · simp [_install_wplace_script, h]
      · simp only [_install_wplace_script, h, Bool.false_eq_true, if_false] at hout ⊢
        rw [hout]
        simp [fsExists, fsWrite]
    have h2 : _install_wplace_script w2 = ⟨true, w2.fs, []⟩ := by
      simp [_install_wplace_script, hmarker]
    rw [h2]
    exact ⟨rfl, rfl⟩

/-- A world whose profile already carries the installation marker. -/
def markedWorld : DeployWorld where
  fs := fsWrite fsEmpty "/p/.wplace_userscript_installed" "installed"
  profileDir := "/p"
  url := "https://example.com/s.user.js"
  response := some "body"
  nav := { gotoRaises := fun _ => false, readyAt := fun _ => false }
  pasteAttempt := fun _ => inertPage

/-- Witness for C3: the short-circuit theorem applied to a marked profile,
including the repeated-call conjunct. -/
theorem claim3_witness :
    _install_wplace_script markedWorld = ⟨true, markedWorld.fs, []⟩ ∧
    (_install_wplace_script markedWorld).events = [] := by
  have h := claim3_marker_short_circuits markedWorld
  have h1 := h.1 rfl
  refine ⟨h1, ?_⟩
  have h2 := h.2 (by rw [h1]) markedWorld (by rw [h1]) rfl
  exact h2.1

/- ## Claim C4: cache-path determinism and cache hits -/

/-- A profile filesystem already holding a previously downloaded userscript
at the fetcher's destination path. -/
def c4FS : FS := fsWrite fsEmpty "/prof/wplace-bot.user.js" "old"

/-- Counterexample to C4 as stated: the claim covers `_download_userscript`,
but that fetcher has no cache: with the destination file already present it
still performs a network fetch and overwrites the file (and its path is the
fixed `wplace-bot.user.js` name, not derived from a digest of the URL). -/
theorem claim4_counterexample_userscript_refetches :
    fsExists c4FS "/prof/wplace-bot.user.js" = true ∧
    (_download_userscript c4FS "/prof" "https://example.com/s.user.js" (some "new")).2.2 =
      [FsEvent.fetch "https://example.com/s.user.js", FsEvent.write "/prof/wplace-bot.user.js"] ∧
    (_download_userscript c4FS "/prof" "https://example.com/s.user.js" (some "new")).2.1
      "/prof/wplace-bot.user.js" = some "new" := by
  decide

/-- Claim C4 (amended): for the addon fetcher the claim holds: the cache path
is `_addon_cache_path` (deterministic in the URL via its SHA-256 digest); a
file already at that path makes `fetchAddonCached` return it with no events
at all (no network fetch); and any successful fetch leaves a state from
which a second fetch of the same URL returns the identical path with no
events.  The userscript fetcher instead re-downloads on every call (see the
counterexample). -/
theorem claim4_addon_cache_hit_and_reuse (fs : FS) (dataDir url : String)
    (resp resp2 : Option String) (fs1 : FS) (p : String) (ev : List FsEvent) :
    (fsExists fs (_addon_cache_path dataDir url) = true →
      fetchAddonCached fs dataDir url resp =
        (Except.ok (fs, _addon_cache_path dataDir url), [])) ∧
    (fetchAddonCached fs dataDir url resp = (Except.ok (fs1, p), ev) →
      p = _addon_cache_path dataDir url ∧
      fetchAddonCached fs1 dataDir url resp2 = (Except.ok (fs1, p), [])) := by
  constructor
  · intro h
    simp [fetchAddonCached, _download_addon, h]
  · intro h
    by_cases hex : fsExists fs (_addon_cache_path dataDir url) = true
    · simp only [fetchAddonCached, _download_addon, hex, if_true] at h
      simp only [Prod.mk.injEq, Except.ok.injEq] at h
      obtain ⟨⟨hfs1, hp⟩, hev⟩ := h
      subst hfs1
      subst hp
      exact ⟨rfl, by simp [fetchAddonCached, _download_addon, hex]⟩
    · rw [Bool.not_eq_true] at hex
      cases hresp : resp with
      | none =>
        rw [hresp] at h
        simp [fetchAddonCached, _download_addon, hex] at h
      | some body =>
        rw [hresp] at h
        simp only [fetchAddonCached, _download_addon, hex, Bool.false_eq_true, if_false] at h
        simp only [Prod.mk.injEq, Except.ok.injEq] at h
        obtain ⟨⟨hfs1, hp⟩, hev⟩ := h
        subst hp
        refine ⟨rfl, ?_⟩
        have hex2 : fsExists fs1 (_addon_cache_path dataDir url) = true := by
          rw [← hfs1]
          simp [fsExists, fsRename, fsWrite]
        simp [fetchAddonCached, _download_addon, hex2]

/-- Witness for C4: a concrete first fetch into an empty cache followed by a
second fetch that returns the identical path with no events. -/
theorem claim4_witness :
    fetchAddonCached
      (fsRename
        (fsWrite fsEmpty (withSuffixTmp (_addon_cache_path "data" "https://e.x/a.xpi")) "x")
        (withSuffixTmp (_addon_cache_path "data" "https://e.x/a.xpi"))
        (_addon_cache_path "data" "https://e.x/a.xpi"))
      "data" "https://e.x/a.xpi" Option.none =
      (Except.ok
        (fsRename
          (fsWrite fsEmpty (withSuffixTmp (_addon_cache_path "data" "https://e.x/a.xpi")) "x")
          (withSuffixTmp (_addon_cache_path "data" "https://e.x/a.xpi"))
          (_addon_cache_path "data" "https://e.x/a.xpi"),
         _addon_cache_path "data" "https://e.x/a.xpi"), []) := by
  exact ((claim4_addon_cache_hit_and_reuse fsEmpty "data" "https://e.x/a.xpi"
    (some "x") Option.none _ _ _).2 rfl).2

/- ## Claim C6: atomic temp-write-then-rename discipline -/

/-- Counterexample to C6 as stated: `_download_userscript` writes the fetched
body directly to its final path — the trace holds a `write` of the returned
path and no `rename` event at all. -/
theorem claim6_counterexample_userscript_direct_write :
    (_download_userscript fsEmpty "/prof" "https://example.com/s.user.js" (some "body")).1 =
      some "/prof/wplace-bot.user.js" ∧
    (_download_userscript fsEmpty "/prof" "https://example.com/s.user.js" (some "body")).2.2 =
      [FsEvent.fetch "https://example.com/s.user.js",
       FsEvent.write "/prof/wplace-bot.user.js"] ∧
    ((_download_userscript fsEmpty "/prof" "https://example.com/s.user.js" (some "body")).2.2.countP
      fun e => match e with | FsEvent.rename _ _ => true | _ => false) = 0 := by
  decide

/-- Claim C6 (amended): the addon download follows the claimed discipline:
it writes the body only to the `.tmp` sibling and the final path is created
exclusively by the atomic rename (the trace contains no direct write of the
final path, the final path holds the full body afterwards, and the temporary
file is gone); the userscript download instead writes directly to its final
destination (see the counterexample). -/
theorem claim6_addon_write_is_atomic (fs : FS) (path url body : String)
    (hex : fsExists fs path = false) (hne : withSuffixTmp path ≠ path) :
    _download_addon fs path url (some body) =
      (Except.ok (fsRename (fsWrite fs (withSuffixTmp path) body) (withSuffixTmp path) path),
       [FsEvent.fetch url, FsEvent.write (withSuffixTmp path),
        FsEvent.rename (withSuffixTmp path) path]) ∧
    fsRename (fsWrite fs (withSuffixTmp path) body) (withSuffixTmp path) path path = some body ∧
    fsRename (fsWrite fs (withSuffixTmp path) body) (withSuffixTmp path) path
      (withSuffixTmp path) = Option.none ∧
    FsEvent.write path ∉
      [FsEvent.fetch url, FsEvent.write (withSuffixTmp path),
       FsEvent.rename (withSuffixTmp path) path] ∧
    ∀ (fsu : FS) (prof u c : String),
      strStartsWith u "http://" ∨ strStartsWith u "https://" → c ≠ "" →
      _download_userscript fsu prof u (some c) =
        (some (prof ++ "/wplace-bot.user.js"), fsWrite fsu (prof ++ "/wplace-bot.user.js") c,
         [FsEvent.fetch u, FsEvent.write (prof ++ "/wplace-bot.user.js")]) := by
  refine ⟨by simp [_download_addon, hex], ?_, ?_, ?_, ?_⟩
  · simp [fsRename, fsWrite]
  · simp [fsRename, fsWrite, hne]
  · simp only [List.mem_cons, List.not_mem_nil, or_false]
    push_neg
    refine ⟨by simp, ?_, by simp⟩
    intro hcontra
    exact hne (FsEvent.write.inj hcontra).symm
  · intro fsu prof u c hu hc
    have hcond : ¬(u = "" ∨ ¬(strStartsWith u "http://" ∨ strStartsWith u "https://")) := by
      rintro (rfl | hn)
      · rcases hu with h | h <;> simp [strStartsWith, List.isPrefixOf] at h
      · exact hn hu
    push_neg at hcond
    rcases hcond.2 with h | h <;> simp [_download_userscript, hcond.1, h, hc]

/-- Witness for C6: the atomicity theorem at a concrete path and body. -/
theorem claim6_witness :
    _download_addon fsEmpty "data/addons/addon-0.xpi" "https://e.x/a.xpi" (some "bytes") =
      (Except.ok (fsRename (fsWrite fsEmpty (withSuffixTmp "data/addons/addon-0.xpi") "bytes")
        (withSuffixTmp "data/addons/addon-0.xpi") "data/addons/addon-0.xpi"),
       [FsEvent.fetch "https://e.x/a.xpi",
        FsEvent.write (withSuffixTmp "data/addons/addon-0.xpi"),
        FsEvent.rename (withSuffixTmp "data/addons/addon-0.xpi") "data/addons/addon-0.xpi"]) ∧
    fsRename (fsWrite fsEmpty (withSuffixTmp "data/addons/addon-0.xpi") "bytes")
      (withSuffixTmp "data/addons/addon-0.xpi") "data/addons/addon-0.xpi"
      "data/addons/addon-0.xpi" = some "bytes" := by
  have h := claim6_addon_write_is_atomic fsEmpty "data/addons/addon-0.xpi" "https://e.x/a.xpi"
    "bytes" rfl (by decide)
  exact ⟨h.1, h.2.1⟩

/- ## Claim C7: empty response bodies -/

/-- The addon cache path used in the C7 counterexample. -/
def c7Path : String := "data/addons/addon-aabbccddeeff.xpi"

/-- Counterexample to C7 as stated: the claim covers `_download_addon`, but
that fetcher has no empty-body check: an empty response body is written to
the temporary file, renamed into the cache, and reported as success, so the
empty body IS cached. -/
theorem claim7_counterexample_addon_caches_empty :
    (_download_addon fsEmpty c7Path "https://example.com/a.xpi" (some "")).1 =
      Except.ok (fsRename (fsWrite fsEmpty (withSuffixTmp c7Path) "") (withSuffixTmp c7Path)
        c7Path) ∧
    fsRename (fsWrite fsEmpty (withSuffixTmp c7Path) "") (withSuffixTmp c7Path) c7Path
      c7Path = some "" ∧
    (_download_addon fsEmpty c7Path "https://example.com/a.xpi" (some "")).2 =
      [FsEvent.fetch "https://example.com/a.xpi", FsEvent.write (withSuffixTmp c7Path),
       FsEvent.rename (withSuffixTmp c7Path) c7Path] := by
  refine ⟨rfl, by decide, rfl⟩

/-- Claim C7 (amended): the userscript fetcher does treat an empty response
body as failure — it returns `None` and writes nothing (the filesystem is
returned unchanged and the only event is the fetch itself); the addon
fetcher lacks the check and caches the empty body (see the
counterexample). -/
theorem claim7_userscript_empty_body_not_cached (fs : FS) (prof url : String)
    (hu : strStartsWith url "http://" ∨ strStartsWith url "https://") :
    _download_userscript fs prof url (some "") = (Option.none, fs, [FsEvent.fetch url]) := by
  have hcond : ¬(url = "" ∨ ¬(strStartsWith url "http://" ∨ strStartsWith url "https://")) := by
    rintro (rfl | hn)
    · rcases hu with h | h <;> simp [strStartsWith, List.isPrefixOf] at h
    · exact hn hu
  push_neg at hcond
  rcases hcond.2 with h | h <;> simp [_download_userscript, hcond.1, h]

/-- Witness for C7: the empty-body theorem at a concrete URL. -/
theorem claim7_witness :
    _download_userscript fsEmpty "/prof" "https://example.com/s.user.js" (some "") =
      (Option.none, fsEmpty, [FsEvent.fetch "https://example.com/s.user.js"]) :=
  claim7_userscript_empty_body_not_cached fsEmpty "/prof" "https://example.com/s.user.js"
    (Or.inr (by decide))

/- ## Claim C8: the extension locator fails soft -/

theorem lookup_append_right {k : String} {A B : PyDict} (h : ∀ p ∈ A, p.1 ≠ k) :
    List.lookup k (A ++ B) = List.lookup k B := by
  induction A with
  | nil => rfl
  | cons a A ih =>
    cases a with
    | mk k0 v0 =>
      have hne : (k == k0) = false :=
        beq_eq_false_iff_ne.mpr fun he => h (k0, v0) (by simp) (by simp [he])
      simp only [List.cons_append, List.lookup, hne]
      exact ih fun p hp => h p (by simp [hp])

theorem normalize_same_site_values {v : PyVal} {s : String}
    (h : _normalize_same_site v = some s) :
    s = "Lax" ∨ s = "Strict" ∨ s = "None" := by
  unfold _normalize_same_site at h
  by_cases ht : pyTruthy v
  · simp only [ht, Bool.not_true, Bool.false_eq_true, if_false] at h
    cases v with
    | str s0 =>
      dsimp only at h
      by_cases hk : asciiLower (pyStrip s0) = "lax" ∨ asciiLower (pyStrip s0) = "strict" ∨
          asciiLower (pyStrip s0) = "none"
      · rw [if_pos hk] at h
        rcases hk with hk | hk | hk <;>
          · rw [hk] at h
            simp only [Option.some.injEq] at h
            subst h
            first
              | exact Or.inl rfl
              | exact Or.inr (Or.inl rfl)
              | exact Or.inr (Or.inr rfl)
      · rw [if_neg hk] at h
        exact absurd h (by simp)
    | none => exact absurd h (by simp)
    | bool b => exact absurd h (by simp)
    | int n => exact absurd h (by simp)
    | float q => exact absurd h (by simp)
    | list xs => exact absurd h (by simp)
    | dict es => exact absurd h (by simp)
  · rw [Bool.not_eq_true] at ht
    simp [ht] at h

theorem cookieSameSiteEntries_shape (raw : PyDict) :
    cookieSameSiteEntries raw = [] ∨
    ∃ s, cookieSameSiteEntries raw = [("sameSite", PyVal.str s)] ∧
      (s = "Lax" ∨ s = "Strict" ∨ s = "None") := by
  unfold cookieSameSiteEntries
  cases hss : _normalize_same_site (pyGet raw "sameSite") with
  | none => exact Or.inl rfl
  | some s =>
    by_cases ht : pyTruthy (PyVal.str s)
    · refine Or.inr ⟨s, ?_, normalize_same_site_values hss⟩
      simp [ht]
    · rw [Bool.not_eq_true] at ht
      exact Or.inl (by simp [ht])

theorem cookieDomainEntries_keys (raw : PyDict) :
    ∀ p ∈ cookieDomainEntries raw, p.1 = "domain" := by
  unfold cookieDomainEntries
  split <;> simp

theorem cookieSecureEntries_keys (raw : PyDict) :
    ∀ p ∈ cookieSecureEntries raw, p.1 = "secure" := by
  unfold cookieSecureEntries
  split <;> simp

theorem cookieHttpOnlyEntries_keys (raw : PyDict) :
    ∀ p ∈ cookieHttpOnlyEntries raw, p.1 = "httpOnly" := by
  unfold cookieHttpOnlyEntries
  split <;> simp

theorem cookieExpiresEntries_keys (raw : PyDict) :
    ∀ p ∈ cookieExpiresEntries raw, p.1 = "expires" := by
  simp only [cookieExpiresEntries]
  repeat' split
  all_goals simp +contextual

/-- Claim C10: cookie normalization raises (`Except.error`) exactly when the
`name` key or the `value` key is absent; when both are present the returned
cookie stores string coercions of the inputs under `name` and `value`, the
`path` defaults to `"/"` when the input path is missing or falsy (and passes
through otherwise), and any `sameSite` entry is exactly `"Lax"`, `"Strict"`
or `"None"`. -/
theorem claim10_cookie_normalization (raw : PyDict) :
    ((_normalize_cookie raw).isOk = false ↔
      pyHasKey raw "name" = false ∨ pyHasKey raw "value" = false) ∧
    ∀ c, _normalize_cookie raw = Except.ok c →
      List.lookup "name" c = some (PyVal.str (pyStr (pyGet raw "name"))) ∧
      List.lookup "value" c = some (PyVal.str (pyStr (pyGet raw "value"))) ∧
      List.lookup "path" c =
        some (if pyTruthy (pyGet raw "path") then pyGet raw "path" else PyVal.str "/") ∧
      ∀ v, List.lookup "sameSite" c = some v →
        v = PyVal.str "Lax" ∨ v = PyVal.str "Strict" ∨ v = PyVal.str "None" := by
  by_cases hn : pyHasKey raw "name"
  · by_cases hv : pyHasKey raw "value"
    · constructor
      · have hok : (_normalize_cookie raw).isOk = true := by
          simp only [_normalize_cookie, hn, hv, Bool.not_true, Bool.false_eq_true, if_false]
          rfl
        simp [hok, hn, hv]
      · intro c hc
        simp only [_normalize_cookie, hn, hv, Bool.not_true, Bool.false_eq_true, if_false,
          Except.ok.injEq] at hc
        subst hc
        refine ⟨by simp [List.lookup], by simp [List.lookup], by simp [List.lookup], ?_⟩
        intro v hl
        simp only [List.cons_append, List.nil_append, List.append_assoc, List.lookup,
          List.append_eq, show ("sameSite" == "name") = false from rfl,
          show ("sameSite" == "value") = false from rfl,
          show ("sameSite" == "path") = false from rfl] at hl
        rw [lookup_append_right (fun p hp => by simp [cookieDomainEntries_keys raw p hp])] at hl
        rw [lookup_append_right (fun p hp => by simp [cookieSecureEntries_keys raw p hp])] at hl
        rw [lookup_append_right (fun p hp => by simp [cookieHttpOnlyEntries_keys raw p hp])] at hl
        rcases cookieSameSiteEntries_shape raw with hss | ⟨s, hss, hvals⟩
        · rw [hss, List.nil_append, show cookieExpiresEntries raw =
              cookieExpiresEntries raw ++ [] from (List.append_nil _).symm] at hl
          rw [lookup_append_right (fun p hp => by
            simp [cookieExpiresEntries_keys raw p hp])] at hl
          simp [List.lookup] at hl
        · rw [hss] at hl
          simp only [List.cons_append, List.nil_append, List.lookup, beq_self_eq_true,
            if_true, Option.some.injEq] at hl
          subst hl
          rcases hvals with h | h | h <;> simp [h]
    · rw [Bool.not_eq_true] at hv
      constructor
      · have hok : (_normalize_cookie raw).isOk = false := by
          simp only [_normalize_cookie, hn, hv, Bool.not_true, Bool.not_false,
            Bool.false_eq_true, if_false, if_true]
          rfl
        simp [hok, hv]
      · intro c hc
        simp [_normalize_cookie, hn, hv] at hc
  · rw [Bool.not_eq_true] at hn
    constructor
    · have hok : (_normalize_cookie raw).isOk = false := by
        simp only [_normalize_cookie, hn, Bool.not_false, if_true]
        rfl
      simp [hok, hn]
    · intro c hc
      simp [_normalize_cookie, hn] at hc

/-- The concrete cookie input and output used by the C10 witness. -/
def c10Raw : PyDict :=
  [("name", PyVal.str "n"), ("value", PyVal.str "v"), ("sameSite", PyVal.str " LAX ")]

/-- Witness for C10: the theorem applied to a concrete cookie with a
normalizable `sameSite`, and to a cookie missing its `value`. -/
theorem claim10_witness :
    _normalize_cookie c10Raw =
      Except.ok [("name", PyVal.str "n"), ("value", PyVal.str "v"),
        ("path", PyVal.str "/"), ("sameSite", PyVal.str "Lax")] ∧
    (PyVal.str "Lax" = PyVal.str "Lax" ∨ PyVal.str "Lax" = PyVal.str "Strict" ∨
      PyVal.str "Lax" = PyVal.str "None") ∧
    (_normalize_cookie [("name", PyVal.str "n")]).isOk = false := by
  refine ⟨rfl, ?_, ?_⟩
  · exact (((claim10_cookie_normalization c10Raw).2 _ rfl).2.2.2 (PyVal.str "Lax") rfl)
  · exact (claim10_cookie_normalization [("name", PyVal.str "n")]).1.mpr (Or.inr rfl)

/- ## Lemmas for the URL canonicalizer -/

theorem splitAtFirstOf_of_forall {stops : List Char} {cs : List Char}
    (h : ∀ c ∈ cs, c ∉ stops) : splitAtFirstOf stops cs = (cs, []) := by
  induction cs with
  | nil => rfl
  | cons c cs ih =>
    simp only [splitAtFirstOf, if_neg (h c (by simp)), ih fun d hd => h d (by simp [hd])]

theorem splitAtFirstOf_append {stops : List Char} {pre : List Char} {c : Char}
    {rest : List Char} (hp : ∀ d ∈ pre, d ∉ stops) (hc : c ∈ stops) :
    splitAtFirstOf stops (pre ++ c :: rest) = (pre, c :: rest) := by
  induction pre with
  | nil => simp [splitAtFirstOf, hc]
  | cons d pre ih =>
    simp only [List.cons_append, splitAtFirstOf, if_neg (hp d (by simp)), List.append_eq,
      ih fun e he => hp e (by simp [he])]

theorem splitOnSlash_ne_nil (cs : List Char) : splitOnSlash cs ≠ [] := by
  cases cs with
  | nil => simp [splitOnSlash]
  | cons c cs =>
    simp only [splitOnSlash]
    split
    · simp
    · split <;> simp

theorem splitOnSlash_append {g : List Char} (hg : '/' ∉ g) (rest : List Char) :
    splitOnSlash (g ++ '/' :: rest) = g :: splitOnSlash rest := by
  induction g with
  | nil => simp [splitOnSlash]
  | cons c g ih =>
    have hc : ¬c = '/' := fun he => hg (by simp [he])
    rw [List.cons_append, splitOnSlash, ih fun he => hg (by simp [he])]
    simp [hc]

theorem splitOnSlash_of_no_slash {g : List Char} (hg : '/' ∉ g) :
    splitOnSlash g = [g] := by
  induction g with
  | nil => rfl
  | cons c g ih =>
    have hc : ¬c = '/' := fun he => hg (by simp [he])
    rw [splitOnSlash, ih fun he => hg (by simp [he])]
    simp [hc]

theorem splitOnSlash_joinSlash :
    ∀ (gs : List (List Char)), gs ≠ [] → (∀ g ∈ gs, '/' ∉ g) →
      splitOnSlash (joinSlash gs) = gs
  | [], h, _ => absurd rfl h
  | [g], _, hs => by
    rw [show joinSlash [g] = g from rfl, splitOnSlash_of_no_slash (hs g (by simp))]
  | g :: g2 :: gs, _, hs => by
    rw [show joinSlash (g :: g2 :: gs) = g ++ '/' :: joinSlash (g2 :: gs) from rfl,
      splitOnSlash_append (hs g (by simp)),
      splitOnSlash_joinSlash (g2 :: gs) (List.cons_ne_nil g2 gs) fun x hx => hs x (by simp [hx])]

theorem joinSlash_ne_nil {g : List Char} (gs : List (List Char)) (hg : g ≠ []) :
    joinSlash (g :: gs) ≠ [] := by
  cases gs with
  | nil => simpa [joinSlash] using hg
  | cons g2 gs =>
    rw [show joinSlash (g :: g2 :: gs) = g ++ '/' :: joinSlash (g2 :: gs) from rfl]
    cases g with
    | nil => exact absurd rfl hg
    | cons c cs => simp

theorem joinSlash_getLast? :
    ∀ (g : List Char) (gs : List (List Char)), (∀ x ∈ g :: gs, x ≠ []) →
      ∃ d, (joinSlash (g :: gs)).getLast? = some d ∧ ∃ x ∈ g :: gs, d ∈ x
  | g, [], h => by
    have hg : g ≠ [] := h g (by simp)
    exact ⟨g.getLast hg,
      by rw [show joinSlash [g] = g from rfl, List.getLast?_eq_getLast _ hg],
      g, by simp, List.getLast_mem hg⟩
  | g, g2 :: gs, h => by
    obtain ⟨d, hd, x, hx, hdx⟩ := joinSlash_getLast? g2 gs fun y hy => h y (by simp [hy])
    have hjj : joinSlash (g2 :: gs) ≠ [] := joinSlash_ne_nil gs (h g2 (by simp))
    refine ⟨d, ?_, x, by simp only [List.mem_cons] at hx ⊢; tauto, hdx⟩
    rw [show joinSlash (g :: g2 :: gs) = g ++ '/' :: joinSlash (g2 :: gs) from rfl]
    rw [List.getLast?_append_of_ne_nil _ (by simp : ('/' :: joinSlash (g2 :: gs)) ≠ [])]
    rw [show ('/' :: joinSlash (g2 :: gs)) = ['/'] ++ joinSlash (g2 :: gs) from rfl,
      List.getLast?_append_of_ne_nil _ hjj]
    exact hd

theorem stripSlashes_cons_slash (cs : List Char) :
    stripSlashes ('/' :: cs) = stripSlashes cs := by
  simp [stripSlashes, List.dropWhile]

theorem stripSlashes_eq_self {cs : List Char} {c d : Char} (h1 : cs.head? = some c)
    (hc : c ≠ '/') (h2 : cs.getLast? = some d) (hd : d ≠ '/') :
    stripSlashes cs = cs := by
  unfold stripSlashes
  have e1 : cs.dropWhile (· = '/') = cs := by
    cases cs with
    | nil => rfl
    | cons a t =>
      simp only [List.head?_cons, Option.some.injEq] at h1
      subst h1
      simp [List.dropWhile_cons, hc]
  rw [e1]
  have hrev : cs.reverse.head? = some d := by
    rw [List.head?_reverse]
    exact h2
  cases hr : cs.reverse with
  | nil => simp [hr] at hrev
  | cons a t =>
    rw [hr] at hrev
    simp only [List.head?_cons, Option.some.injEq] at hrev
    subst hrev
    rw [List.dropWhile_cons, if_neg (by simpa using hd)]
    rw [← hr, List.reverse_reverse]

/- ## Claims C2 and C5: URL canonicalization -/

/-- The characters of the literal prefix `https://github.com/`. -/
def httpsGithubChars : List Char :=
  ('h' :: 't' :: 't' :: 'p' :: 's' :: ':' :: '/' :: '/' ::
   'g' :: 'i' :: 't' :: 'h' :: 'u' :: 'b' :: '.' :: 'c' :: 'o' :: 'm' :: '/' :: [])

/-- The characters of the host `github.com`. -/
def githubHostChars : List Char :=
  ('g' :: 'i' :: 't' :: 'h' :: 'u' :: 'b' :: '.' :: 'c' :: 'o' :: 'm' :: [])

theorem char_printable_not_tnr {c : Char} (hc : 32 < c.toNat) :
    (!(c = '\t' || c = '\n' || c = '\r')) = true := by
  have h1 : c ≠ '\t' := fun he => absurd hc (by rw [he]; decide)
  have h2 : c ≠ '\n' := fun he => absurd hc (by rw [he]; decide)
  have h3 : c ≠ '\r' := fun he => absurd hc (by rw [he]; decide)
  simp [h1, h2, h3]

/-- `urlsplit` on `https://github.com/<tail>` yields host `github.com` and
path `/<tail>` whenever the tail holds no whitespace/control, `?` or `#`
characters. -/
theorem urlsplit_https_github (tail : List Char)
    (ht : ∀ c ∈ tail, 32 < c.toNat ∧ c ≠ '?' ∧ c ≠ '#') :
    urlsplitNetlocPath (String.mk (httpsGithubChars ++ tail)) =
      ("github.com", String.mk ('/' :: tail)) := by
  have e0 : (httpsGithubChars ++ tail).dropWhile (fun c => c.toNat ≤ 32) =
      httpsGithubChars ++ tail := by
    apply dropWhile_eq_self_of_forall
    intro c hcmem
    rcases List.mem_append.mp hcmem with h | h
    · fin_cases h <;> decide
    · have := (ht c h).1
      simp only [decide_eq_false_iff_not]
      omega
  have e1 : (httpsGithubChars ++ tail).filter
      (fun c => !(c = '\t' || c = '\n' || c = '\r')) = httpsGithubChars ++ tail := by
    apply List.filter_eq_self.mpr
    intro c hcmem
    rcases List.mem_append.mp hcmem with h | h
    · fin_cases h <;> decide
    · exact char_printable_not_tnr (ht c h).1
  have hsplit : httpsGithubChars ++ tail =
      ('h' :: 't' :: 't' :: 'p' :: 's' :: []) ++ ':' ::
        ('/' :: '/' :: (githubHostChars ++ '/' :: tail)) := rfl
  have e2 : dropScheme (httpsGithubChars ++ tail) = '/' :: '/' :: (githubHostChars ++ '/' :: tail) := by
    unfold dropScheme
    rw [hsplit, splitAtFirstOf_append (by decide) (by decide)]
    simp [show validScheme ['h', 't', 't', 'p', 's'] = true from by decide]
  have e3 : netlocAndRest ('/' :: '/' :: (githubHostChars ++ '/' :: tail)) =
      (githubHostChars, '/' :: tail) := by
    rw [show netlocAndRest ('/' :: '/' :: (githubHostChars ++ '/' :: tail)) =
      splitAtFirstOf ['/', '?', '#'] (githubHostChars ++ '/' :: tail) from rfl]
    exact splitAtFirstOf_append (by decide) (by decide)
  have e4 : dropFragmentQuery ('/' :: tail) = '/' :: tail := by
    unfold dropFragmentQuery
    rw [@splitAtFirstOf_of_forall ['#'] ('/' :: tail)
      (fun c hc => by
        rcases List.mem_cons.mp hc with rfl | h
        · decide
        · simp [(ht c h).2.2]),
      @splitAtFirstOf_of_forall ['?'] ('/' :: tail)
      (fun c hc => by
        rcases List.mem_cons.mp hc with rfl | h
        · decide
        · simp [(ht c h).2.1])]
  show (let cs := ((String.mk (httpsGithubChars ++ tail)).data.dropWhile
      fun c => c.toNat ≤ 32).filter fun c => !(c = '\t' || c = '\n' || c = '\r')
    let rest := dropScheme cs
    let p := netlocAndRest rest
    (String.mk p.1, String.mk (dropFragmentQuery p.2))) = _
  simp only [show ∀ X : List Char, (String.mk X).data = X from fun _ => rfl]
  rw [e0, e1, e2, e3]
  simp only
  rw [e4]
  simp only [Prod.mk.injEq]
  exact ⟨by decide, trivial⟩

theorem mem_joinSlash {c : Char} :
    ∀ {gs : List (List Char)}, c ∈ joinSlash gs → c = '/' ∨ ∃ g ∈ gs, c ∈ g
  | [], h => by simp [joinSlash] at h
  | [g], h => Or.inr ⟨g, by simp, by simpa [joinSlash] using h⟩
  | g :: g2 :: gs, h => by
    rw [show joinSlash (g :: g2 :: gs) = g ++ '/' :: joinSlash (g2 :: gs) from rfl] at h
    rcases List.mem_append.mp h with h | h
    · exact Or.inr ⟨g, by simp, h⟩
    · rcases List.mem_cons.mp h with rfl | h
      · exact Or.inl rfl
      · rcases mem_joinSlash h with h | ⟨g2, hg2, hc⟩
        · exact Or.inl h
        · exact Or.inr ⟨g2, by simp [hg2], hc⟩

theorem joinSlash_ne_nil' {gs : List (List Char)} (h : gs ≠ []) (hx : ∀ x ∈ gs, x ≠ []) :
    joinSlash gs ≠ [] := by
  cases gs with
  | nil => exact absurd rfl h
  | cons g gs => exact joinSlash_ne_nil gs (hx g (by simp))

/-- Characters admissible inside one path segment of a URL: printable ASCII
that is not a separator (`/`), query (`?`) or fragment (`#`) introducer. -/
def urlSegChar (c : Char) : Bool :=
  32 < c.toNat && c.toNat < 127 && !(c = '/') && !(c = '?') && !(c = '#')

theorem urlSegChar_spec {c : Char} (h : urlSegChar c = true) :
    32 < c.toNat ∧ c.toNat < 127 ∧ c ≠ '/' ∧ c ≠ '?' ∧ c ≠ '#' := by
  simp only [urlSegChar, Bool.and_eq_true, decide_eq_true_eq, Bool.not_eq_true',
    decide_eq_false_iff_not] at h
  tauto

theorem pyIsSpace_false_of_printable {c : Char} (h1 : 32 < c.toNat) (h2 : c.toNat < 127) :
    pyIsSpace c = false := by
  simp only [pyIsSpace, Bool.or_eq_false_iff, Bool.and_eq_false_iff,
    decide_eq_false_iff_not, decide_eq_true_eq]
  omega

/-- `"/".join` over string segments, as `segsJoin` for theorem statements. -/
def segsJoin (gs : List String) : String :=
  String.mk (joinSlash (gs.map String.data))

/-- Zeta-free unfolding of `_normalize_github_raw_url` (definitional). -/
theorem normalize_github_raw_url_unfold (url : String) :
    _normalize_github_raw_url url =
      (if pyStrip url = "" then ""
       else
         if asciiLower (urlsplitNetlocPath (pyStrip url)).1 = "github.com" ∨
             asciiLower (urlsplitNetlocPath (pyStrip url)).1 = "www.github.com" then
           if 6 ≤ (splitOnSlash (stripSlashes
                 (urlsplitNetlocPath (pyStrip url)).2.data)).length ∧
               (splitOnSlash (stripSlashes
                 (urlsplitNetlocPath (pyStrip url)).2.data)).get? 2 =
                 some ('r' :: 'a' :: 'w' :: []) then
             if (splitOnSlash (stripSlashes
                   (urlsplitNetlocPath (pyStrip url)).2.data)).headD [] ≠ [] ∧
                 ((splitOnSlash (stripSlashes
                   (urlsplitNetlocPath (pyStrip url)).2.data)).drop 1).headD [] ≠ [] ∧
                 joinSlash ((splitOnSlash (stripSlashes
                   (urlsplitNetlocPath (pyStrip url)).2.data)).drop 3) ≠ [] then
               "https://raw.githubusercontent.com/" ++
                 String.mk ((splitOnSlash (stripSlashes
                   (urlsplitNetlocPath (pyStrip url)).2.data)).headD []) ++ "/" ++
                 String.mk (((splitOnSlash (stripSlashes
                   (urlsplitNetlocPath (pyStrip url)).2.data)).drop 1).headD []) ++ "/" ++
                 String.mk (joinSlash ((splitOnSlash (stripSlashes
                   (urlsplitNetlocPath (pyStrip url)).2.data)).drop 3))
             else pyStrip url
           else pyStrip url
         else pyStrip url) := rfl

set_option maxHeartbeats 2000000 in
/-- Claim C2 (amended): `_normalize_github_raw_url` rewrites a GitHub raw
permalink `https://github.com/owner/repo/raw/<rest>` to
`https://raw.githubusercontent.com/owner/repo/<rest>` when `<rest>` has at
least three `/`-separated segments (so the whole path has at least six, as
with `refs/heads/main/...` branch refs); a five-segment URL such as
`https://github.com/owner/repo/raw/main/dist.user.js` passes through
unchanged (see the counterexample). -/
theorem claim2_deep_raw_permalink_rewritten (owner repo : String) (rest : List String)
    (how : ∀ c ∈ owner.data, urlSegChar c) (hrw : ∀ c ∈ repo.data, urlSegChar c)
    (hrest : ∀ g ∈ rest, ∀ c ∈ g.data, urlSegChar c)
    (ho : owner ≠ "") (hr2 : repo ≠ "") (hlen : 3 ≤ rest.length)
    (hseg : ∀ g ∈ rest, g ≠ "") :
    _normalize_github_raw_url
        ("https://github.com/" ++ owner ++ "/" ++ repo ++ "/raw/" ++ segsJoin rest) =
      "https://raw.githubusercontent.com/" ++ owner ++ "/" ++ repo ++ "/" ++ segsJoin rest := by
  have hodata : owner.data ≠ [] := fun he => ho (String.ext_iff.mpr (by simp [he]))
  have hrdata : repo.data ≠ [] := fun he => hr2 (String.ext_iff.mpr (by simp [he]))
  have hsegdata : ∀ x ∈ rest.map String.data, x ≠ [] := by
    intro x hx
    rcases List.mem_map.mp hx with ⟨g, hg, rfl⟩
    exact fun he => hseg g hg (String.ext_iff.mpr (by simp [he]))
  have hsegslash : ∀ x ∈ rest.map String.data, '/' ∉ x := by
    intro x hx hc
    rcases List.mem_map.mp hx with ⟨g, hg, rfl⟩
    exact (urlSegChar_spec (hrest g hg _ hc)).2.2.1 rfl
  have hmapne : rest.map String.data ≠ [] := by
    have : rest ≠ [] := by intro he; rw [he] at hlen; simp at hlen
    simpa using this
  set J := joinSlash (rest.map String.data) with hJdef
  have hJne : J ≠ [] := joinSlash_ne_nil' hmapne hsegdata
  set Y := owner.data ++ '/' :: (repo.data ++ '/' ::
    (('r' :: 'a' :: 'w' :: []) ++ '/' :: J)) with hYdef
  have hYchars : ∀ c ∈ Y, 32 < c.toNat ∧ c.toNat < 127 ∧ c ≠ '?' ∧ c ≠ '#' := by
    intro c hc
    rw [hYdef] at hc
    rcases List.mem_append.mp hc with h | h
    · have := urlSegChar_spec (how c h)
      tauto
    · rcases List.mem_cons.mp h with rfl | h
      · refine ⟨by decide, by decide, by decide, by decide⟩
      · rcases List.mem_append.mp h with h | h
        · have := urlSegChar_spec (hrw c h)
          tauto
        · rcases List.mem_cons.mp h with rfl | h
          · refine ⟨by decide, by decide, by decide, by decide⟩
          · rcases List.mem_append.mp h with h | h
            · fin_cases h <;> exact ⟨by decide, by decide, by decide, by decide⟩
            · rcases List.mem_cons.mp h with rfl | h
              · exact ⟨by decide, by decide, by decide, by decide⟩
              · rcases mem_joinSlash h with rfl | ⟨g, hg, hcg⟩
                · exact ⟨by decide, by decide, by decide, by decide⟩
                · rcases List.mem_map.mp hg with ⟨g0, hg0, rfl⟩
                  have := urlSegChar_spec (hrest g0 hg0 c hcg)
                  tauto
  have hu : ("https://github.com/" ++ owner ++ "/" ++ repo ++ "/raw/" ++ segsJoin rest).data =
      httpsGithubChars ++ Y := by
    simp only [String.data_append, segsJoin,
      show ∀ X : List Char, (String.mk X).data = X from fun _ => rfl]
    rw [← hJdef, hYdef]
    simp [httpsGithubChars, List.append_assoc]
  have hYtail : ∀ c ∈ Y, 32 < c.toNat ∧ c ≠ '?' ∧ c ≠ '#' :=
    fun c hc => ⟨(hYchars c hc).1, (hYchars c hc).2.2.1, (hYchars c hc).2.2.2⟩
  have hstrip : pyStrip ("https://github.com/" ++ owner ++ "/" ++ repo ++ "/raw/" ++
      segsJoin rest) = "https://github.com/" ++ owner ++ "/" ++ repo ++ "/raw/" ++
      segsJoin rest := by
    apply pyStrip_eq_self
    rw [hu]
    intro c hc
    rcases List.mem_append.mp hc with h | h
    · exact (show ∀ c ∈ httpsGithubChars, pyIsSpace c = false from by decide) c h
    · exact pyIsSpace_false_of_printable (hYchars c h).1 (hYchars c h).2.1
  have hune : ("https://github.com/" ++ owner ++ "/" ++ repo ++ "/raw/" ++ segsJoin rest) ≠
      "" := by
    intro he
    have h2 := hu
    rw [he] at h2
    simp [httpsGithubChars] at h2
  have hu2 : ("https://github.com/" ++ owner ++ "/" ++ repo ++ "/raw/" ++ segsJoin rest) =
      String.mk (httpsGithubChars ++ Y) := by
    rw [String.ext_iff]
    exact hu
  have hparsed : urlsplitNetlocPath ("https://github.com/" ++ owner ++ "/" ++ repo ++
      "/raw/" ++ segsJoin rest) = ("github.com", String.mk ('/' :: Y)) := by
    rw [hu2]
    exact urlsplit_https_github Y hYtail
  have hYhead : ∃ c0, Y.head? = some c0 ∧ c0 ≠ '/' := by
    cases ho2 : owner.data with
    | nil => exact absurd ho2 hodata
    | cons c0 t =>
      refine ⟨c0, ?_, (urlSegChar_spec (how c0 (by rw [ho2]; simp))).2.2.1⟩
      rw [hYdef, ho2]
      rfl
  have hYlast : ∃ d, Y.getLast? = some d ∧ d ≠ '/' := by
    obtain ⟨g0, gs0, hmap⟩ : ∃ g0 gs0, rest.map String.data = g0 :: gs0 := by
      cases hm : rest.map String.data with
      | nil => exact absurd hm hmapne
      | cons a b => exact ⟨a, b, rfl⟩
    obtain ⟨d, hd, x, hx, hdx⟩ := joinSlash_getLast? g0 gs0 (by rw [← hmap]; exact hsegdata)
    have hdJ : J.getLast? = some d := by
      rw [hJdef, hmap]
      exact hd
    refine ⟨d, ?_, ?_⟩
    · rw [hYdef]
      rw [List.getLast?_append_of_ne_nil _ (List.cons_ne_nil _ _)]
      rw [show ('/' :: (repo.data ++ '/' :: (('r' :: 'a' :: 'w' :: []) ++ '/' :: J))) =
        ['/'] ++ (repo.data ++ '/' :: (('r' :: 'a' :: 'w' :: []) ++ '/' :: J)) from rfl]
      rw [List.getLast?_append_of_ne_nil _ (by simp)]
      rw [List.getLast?_append_of_ne_nil _ (List.cons_ne_nil _ _)]
      rw [show ('/' :: (('r' :: 'a' :: 'w' :: []) ++ '/' :: J)) =
        ['/'] ++ (('r' :: 'a' :: 'w' :: []) ++ '/' :: J) from rfl]
      rw [List.getLast?_append_of_ne_nil _ (by simp)]
      rw [List.getLast?_append_of_ne_nil _ (List.cons_ne_nil _ _)]
      rw [show ('/' :: J) = ['/'] ++ J from rfl]
      rw [List.getLast?_append_of_ne_nil _ hJne]
      exact hdJ
    · have hx2 : x ∈ rest.map String.data := by
        rw [hmap]
        exact hx
      rcases List.mem_map.mp hx2 with ⟨g, hg, rfl⟩
      exact (urlSegChar_spec (hrest g hg d hdx)).2.2.1
  obtain ⟨c0, hc0, hc0ne⟩ := hYhead
  obtain ⟨d0, hd0, hd0ne⟩ := hYlast
  have hstripY : stripSlashes ('/' :: Y) = Y := by
    rw [stripSlashes_cons_slash]
    exact stripSlashes_eq_self hc0 hc0ne hd0 hd0ne
  have hsplitY : splitOnSlash Y =
      owner.data :: repo.data :: ('r' :: 'a' :: 'w' :: []) :: rest.map String.data := by
    rw [hYdef]
    rw [splitOnSlash_append fun hc => (urlSegChar_spec (how '/' hc)).2.2.1 rfl]
    rw [splitOnSlash_append fun hc => (urlSegChar_spec (hrw '/' hc)).2.2.1 rfl]
    rw [splitOnSlash_append (by decide)]
    rw [hJdef, splitOnSlash_joinSlash (rest.map String.data) hmapne hsegslash]
  have hparts :
      (owner.data :: repo.data :: ('r' :: 'a' :: 'w' :: []) :: rest.map String.data).length =
        3 + rest.length := by
    simp [List.length_map]
    omega
  have hguard1 : 6 ≤ (owner.data :: repo.data :: ('r' :: 'a' :: 'w' :: []) ::
      rest.map String.data).length ∧
      (owner.data :: repo.data :: ('r' :: 'a' :: 'w' :: []) ::
        rest.map String.data).get? 2 = some ('r' :: 'a' :: 'w' :: []) := by
    refine ⟨?_, rfl⟩
    rw [hparts]
    omega
  have hguard2 : (owner.data :: repo.data :: ('r' :: 'a' :: 'w' :: []) ::
        rest.map String.data).headD [] ≠ [] ∧
      ((owner.data :: repo.data :: ('r' :: 'a' :: 'w' :: []) ::
        rest.map String.data).drop 1).headD [] ≠ [] ∧
      joinSlash ((owner.data :: repo.data :: ('r' :: 'a' :: 'w' :: []) ::
        rest.map String.data).drop 3) ≠ [] := by
    refine ⟨hodata, hrdata, ?_⟩
    rw [show (owner.data :: repo.data :: ('r' :: 'a' :: 'w' :: []) ::
      rest.map String.data).drop 3 = rest.map String.data from rfl, ← hJdef]
    exact hJne
  rw [normalize_github_raw_url_unfold, hstrip, if_neg hune, hparsed,
    show (("github.com", String.mk ('/' :: Y)) : String × String).1 = "github.com" from rfl,
    show (("github.com", String.mk ('/' :: Y)) : String × String).2.data = '/' :: Y from rfl,
    show asciiLower "github.com" = "github.com" from by decide,
    hstripY, hsplitY, if_pos (Or.inl rfl), if_pos hguard1, if_pos hguard2,
    show (owner.data :: repo.data :: ('r' :: 'a' :: 'w' :: []) ::
      rest.map String.data).headD [] = owner.data from rfl,
    show ((owner.data :: repo.data :: ('r' :: 'a' :: 'w' :: []) ::
      rest.map String.data).drop 1).headD [] = repo.data from rfl,
    show (owner.data :: repo.data :: ('r' :: 'a' :: 'w' :: []) ::
      rest.map String.data).drop 3 = rest.map String.data from rfl, ← hJdef]
  rfl

/-- Zeta-free unfolding of `_normalize_userscript_url` (definitional). -/
theorem normalize_userscript_url_unfold (url : String) :
    _normalize_userscript_url url =
      if pyStrip url = "" then "" else _normalize_github_raw_url (pyStrip url) := rfl

/-- Zeta-free unfolding of `rawPermalinkRewritable` (definitional). -/
theorem rawPermalinkRewritable_unfold (value : String) :
    rawPermalinkRewritable value =
      ((asciiLower (urlsplitNetlocPath value).1 = "github.com" ||
        asciiLower (urlsplitNetlocPath value).1 = "www.github.com") &&
       (decide (6 ≤ (splitOnSlash (stripSlashes (urlsplitNetlocPath value).2.data)).length) &&
        decide ((splitOnSlash (stripSlashes (urlsplitNetlocPath value).2.data)).get? 2 =
          some ('r' :: 'a' :: 'w' :: []))) &&
       (decide ((splitOnSlash (stripSlashes (urlsplitNetlocPath value).2.data)).headD [] ≠ []) &&
        decide (((splitOnSlash (stripSlashes
          (urlsplitNetlocPath value).2.data)).drop 1).headD [] ≠ []) &&
        decide (joinSlash ((splitOnSlash (stripSlashes
          (urlsplitNetlocPath value).2.data)).drop 3) ≠ []))) := rfl

/-- Python `"[" in netloc` (character membership, as `urlsplit` tests it). -/
def containsChar (cs : List Char) (b : Char) : Bool :=
  cs.any fun c => c = b

/-- The `ValueError("Invalid IPv6 URL")` condition of
`urllib.parse.urlsplit` (present in every CPython version): the extracted
netloc holds `[` without `]` or `]` without `[`.  (CPython 3.12+ further
validates the content of a balanced bracket pair; the theorems below
quantify only over bracket-free inputs, on which every version returns
normally, so neither check can fire there.) -/
def invalidIPv6Netloc (netloc : String) : Bool :=
  (containsChar netloc.data '[' && !containsChar netloc.data ']') ||
  (containsChar netloc.data ']' && !containsChar netloc.data '[')

/-- Exception-aware embedding of `run_one.py::_normalize_github_raw_url`:
`urllib.parse.urlsplit` raises `ValueError("Invalid IPv6 URL")` exactly when
`invalidIPv6Netloc` holds of the netloc it extracts, which is
`(urlsplitNetlocPath value).1`; `.error` models that uncaught exception
propagating out of the function.  On every other input `urlsplit` returns
normally and the function's value is the total model
`_normalize_github_raw_url`, whose body is the line-by-line translation of
the code around and after the `urlsplit` call. -/
def _normalize_github_raw_urlE (url : String) : Except String String :=
  let value := pyStrip url
  if value = "" then Except.ok ""
  else if invalidIPv6Netloc (urlsplitNetlocPath value).1 then
    Except.error "Invalid IPv6 URL"
  else Except.ok (_normalize_github_raw_url url)

/-- Exception-aware embedding of `run_one.py::_normalize_userscript_url`:
propagates the `urlsplit` exception from `_normalize_github_raw_urlE` (the
source has no handler around the call). -/
def _normalize_userscript_urlE (url : String) : Except String String :=
  let value := pyStrip url
  if value = "" then Except.ok "" else _normalize_github_raw_urlE value

theorem splitAtFirstOf_fst_sublist (stops : List Char) (cs : List Char) :
    (splitAtFirstOf stops cs).1.Sublist cs := by
  induction cs with
  | nil => simp [splitAtFirstOf]
  | cons c cs ih =>
    by_cases h : c ∈ stops
    · simp [splitAtFirstOf, h]
    · simpa [splitAtFirstOf, h] using ih.cons₂ c

theorem splitAtFirstOf_snd_sublist (stops : List Char) (cs : List Char) :
    (splitAtFirstOf stops cs).2.Sublist cs := by
  induction cs with
  | nil => simp [splitAtFirstOf]
  | cons c cs ih =>
    by_cases h : c ∈ stops
    · simp [splitAtFirstOf, h]
    · simpa [splitAtFirstOf, h] using ih.cons c

theorem dropScheme_sublist (cs : List Char) : (dropScheme cs).Sublist cs := by
  rw [show dropScheme cs = (match (splitAtFirstOf [':'] cs).2 with
      | ':' :: tail => if validScheme (splitAtFirstOf [':'] cs).1 then tail else cs
      | _ => cs) from rfl]
  split
  · rename_i tail heq
    split
    · exact (List.sublist_cons_self ':' tail).trans
        (heq ▸ splitAtFirstOf_snd_sublist [':'] cs)
    · exact List.Sublist.refl cs
  · exact List.Sublist.refl cs

theorem netlocAndRest_fst_sublist (cs : List Char) :
    (netlocAndRest cs).1.Sublist cs := by
  unfold netlocAndRest
  split
  next tail =>
    exact ((splitAtFirstOf_fst_sublist ['/', '?', '#'] tail).cons '/').cons '/'
  next => exact List.nil_sublist cs

/-- Every character of the netloc computed by `urlsplitNetlocPath` occurs in
the input string (the preprocessing and splitting steps only drop
characters). -/
theorem urlsplit_netloc_mem (s : String) (c : Char)
    (hc : c ∈ (urlsplitNetlocPath s).1.data) : c ∈ s.data := by
  have h1 : ((urlsplitNetlocPath s).1).data =
      (netlocAndRest (dropScheme ((s.data.dropWhile fun c => c.toNat ≤ 32).filter
        fun c => !(c = '\t' || c = '\n' || c = '\r')))).1 := rfl
  rw [h1] at hc
  have m1 : c ∈ dropScheme ((s.data.dropWhile fun c => c.toNat ≤ 32).filter
      fun c => !(c = '\t' || c = '\n' || c = '\r')) :=
    (netlocAndRest_fst_sublist _).subset hc
  have m2 : c ∈ (s.data.dropWhile fun c => c.toNat ≤ 32).filter
      fun c => !(c = '\t' || c = '\n' || c = '\r') :=
    (dropScheme_sublist _).subset m1
  have m3 : c ∈ s.data.dropWhile fun c => c.toNat ≤ 32 :=
    (List.filter_sublist _).subset m2
  exact (List.dropWhile_sublist _).subset m3

/-- Zeta-free unfolding of `_normalize_github_raw_urlE` (definitional). -/
theorem normalize_github_raw_urlE_unfold (url : String) :
    _normalize_github_raw_urlE url =
      if pyStrip url = "" then Except.ok ""
      else if invalidIPv6Netloc (urlsplitNetlocPath (pyStrip url)).1 then
        Except.error "Invalid IPv6 URL"
      else Except.ok (_normalize_github_raw_url url) := rfl

/-- Zeta-free unfolding of `_normalize_userscript_urlE` (definitional). -/
theorem normalize_userscript_urlE_unfold (url : String) :
    _normalize_userscript_urlE url =
      if pyStrip url = "" then Except.ok ""
      else _normalize_github_raw_urlE (pyStrip url) := rfl

/-- On the unbalanced-bracket input the exception-aware model raises exactly
as `urllib.parse.urlsplit` does in the source. -/
theorem normalize_userscript_urlE_invalid_ipv6 :
    _normalize_userscript_urlE "http://[a/b" = Except.error "Invalid IPv6 URL" := rfl

/-- Claim C5 (amended): over printable, bracket-free input (where
`urllib.parse.urlsplit` cannot raise), canonicalization is the identity on
every http(s) URL that is not a rewritable raw permalink, and the empty
input canonicalizes to `""`.  Two error paths the original claim misstates:
a malformed non-http(s) input passes through unchanged rather than yielding
the empty string (see the counterexample), and an unbalanced-bracket netloc
such as `http://[a/b` makes `urlsplit` raise `ValueError` instead of
returning anything. -/
theorem claim5_passthrough_and_empty (u : String)
    (hchars : ∀ c ∈ u.data, (32 < c.toNat ∧ c.toNat < 127) ∧ c ≠ '[' ∧ c ≠ ']')
    (hpre : ("http://" : String).data.isPrefixOf u.data ∨
      ("https://" : String).data.isPrefixOf u.data)
    (hr : rawPermalinkRewritable u = false) :
    _normalize_userscript_urlE u = Except.ok u ∧
      _normalize_userscript_urlE "" = Except.ok "" := by
  have hstrip : pyStrip u = u := by
    apply pyStrip_eq_self
    intro c hc
    exact pyIsSpace_false_of_printable (hchars c hc).1.1 (hchars c hc).1.2
  have hne : u ≠ "" := by
    intro he
    have hd : u.data = [] := by rw [he]
    rcases hpre with h | h
    · rw [hd] at h
      exact absurd h (by decide)
    · rw [hd] at h
      exact absurd h (by decide)
  have hnb : ∀ b : Char, b ∈ (urlsplitNetlocPath u).1.data → b ≠ '[' ∧ b ≠ ']' :=
    fun b hb => (hchars b (urlsplit_netloc_mem u b hb)).2
  have hbl : containsChar (urlsplitNetlocPath u).1.data '[' = false := by
    simp only [containsChar]
    rw [List.any_eq_false]
    intro b hb
    simp [(hnb b hb).1]
  have hbrk : containsChar (urlsplitNetlocPath u).1.data ']' = false := by
    simp only [containsChar]
    rw [List.any_eq_false]
    intro b hb
    simp [(hnb b hb).2]
  have hbr : invalidIPv6Netloc (urlsplitNetlocPath u).1 = false := by
    simp [invalidIPv6Netloc, hbl, hbrk]
  have hg : _normalize_github_raw_url u = u := by
    rw [normalize_github_raw_url_unfold, hstrip, if_neg hne]
    rw [rawPermalinkRewritable_unfold] at hr
    by_cases hA : asciiLower (urlsplitNetlocPath u).1 = "github.com" ∨
        asciiLower (urlsplitNetlocPath u).1 = "www.github.com"
    · rw [if_pos hA]
      by_cases hB : 6 ≤ (splitOnSlash (stripSlashes (urlsplitNetlocPath u).2.data)).length ∧
          (splitOnSlash (stripSlashes (urlsplitNetlocPath u).2.data)).get? 2 =
            some ('r' :: 'a' :: 'w' :: [])
      · rw [if_pos hB]
        by_cases hC : (splitOnSlash (stripSlashes
              (urlsplitNetlocPath u).2.data)).headD [] ≠ [] ∧
            ((splitOnSlash (stripSlashes (urlsplitNetlocPath u).2.data)).drop 1).headD [] ≠ [] ∧
            joinSlash ((splitOnSlash (stripSlashes
              (urlsplitNetlocPath u).2.data)).drop 3) ≠ []
        · exfalso
          rcases hA with h | h <;> simp_all
        · rw [if_neg hC]
      · rw [if_neg hB]
    · rw [if_neg hA]
  refine ⟨?_, rfl⟩
  rw [normalize_userscript_urlE_unfold, hstrip, if_neg hne,
    normalize_github_raw_urlE_unfold, hstrip, if_neg hne, hbr]
  rw [if_neg (by decide : ¬(false = true)), hg]

/-- Counterexample to C2 as stated: the five-segment raw permalink from the
claim is returned unchanged (the source requires at least six path
segments), not rewritten to the raw host. -/
theorem claim2_counterexample_five_segments_not_rewritten :
    _normalize_github_raw_url "https://github.com/owner/repo/raw/main/dist.user.js" =
      "https://github.com/owner/repo/raw/main/dist.user.js" ∧
    "https://github.com/owner/repo/raw/main/dist.user.js" ≠
      "https://raw.githubusercontent.com/owner/repo/main/dist.user.js" := by
  decide

/-- Witness for C2: the amended theorem applied to the default script URL
shape `owner/repo/raw/refs/heads/main/dist.user.js`. -/
theorem claim2_witness :
    _normalize_github_raw_url ("https://github.com/" ++ "owner" ++ "/" ++ "repo" ++ "/raw/" ++
      segsJoin ["refs", "heads", "main", "dist.user.js"]) =
      "https://raw.githubusercontent.com/" ++ "owner" ++ "/" ++ "repo" ++ "/" ++
      segsJoin ["refs", "heads", "main", "dist.user.js"] :=
  claim2_deep_raw_permalink_rewritten "owner" "repo" ["refs", "heads", "main", "dist.user.js"]
    (by decide) (by decide) (by decide) (by decide) (by decide) (by decide) (by decide)

/-- Counterexample to C5 as stated: a malformed (non-http(s)) input passes
through `_normalize_userscript_url` unchanged instead of yielding the empty
string; the http(s)-prefix rejection happens later, in the fetcher. -/
theorem claim5_counterexample_malformed_passes_through :
    _normalize_userscript_url "ftp://example.com/a.user.js" = "ftp://example.com/a.user.js" ∧
    _normalize_userscript_url "ftp://example.com/a.user.js" ≠ "" := by
  decide

/-- Witness for C5: the amended theorem applied to a concrete non-GitHub
http(s) URL. -/
theorem claim5_witness :
    _normalize_userscript_urlE "https://example.com/sc.user.js" =
      Except.ok "https://example.com/sc.user.js" ∧
      _normalize_userscript_urlE "" = Except.ok "" :=
  claim5_passthrough_and_empty "https://example.com/sc.user.js" (by decide)
    (Or.inr (by decide)) (by decide)
